import Mathlib

/-!
Shallow embedding of the Traffic-Sim core (OSM entity model, segment
container, ingestion merge steps, graph builder and routing engine) from
`src/src/traffic/{osm.h, osm.cpp, parser.cpp, osm_graph.cpp}`.

Modelling conventions:
* `int64_t` identifiers are `Int`; `size_t` values are `Nat`, with the
  sentinel `numeric_limits<size_t>::max()` as the concrete `2^64 - 1`.
* `float`/`double` values (`prec_t` is `double`, the XMLMap boundary
  fields are `float`) are modelled as exact rationals; the float-range
  constants `FLT_MIN`/`FLT_MAX`/`DBL_MAX` keep their exact numeric values.
* `robin_hood::unordered_node_map<int64_t, size_t>` is modelled as an
  association list with at most one entry per key; `operator[]`-style
  default-insertion is modelled explicitly where the source uses it.
* Out-of-bounds vector subscripts and null-pointer dereferences (which
  are undefined behaviour in the source) are modelled by `Option` /
  explicit `ub` results.
-/

namespace TrafficSim

/-- `numeric_limits<size_t>::max()`, the sentinel returned by
`XMLMap::getNodeIndex` and friends for an absent id (osm.cpp:429-440). -/
def SIZE_MAX : Nat := 2 ^ 64 - 1

/-- Exact value of `numeric_limits<float>::min()` (smallest positive
normalized float), used by `XMLMap::recalculateBoundaries` to initialize
the max-trackers (osm.cpp:325,327). -/
def FLOAT_MIN : ℚ := 1 / 85070591730234615865843651857942052864

/-- Exact value of `numeric_limits<float>::max()`, used by
`recalculateBoundaries` to initialize its min-trackers (osm.cpp:326,328). -/
def FLOAT_MAX : ℚ := 340282346638528859811704183484516925440

/-- Exact value of `numeric_limits<double>::max()`, the "infinity"
initial distance in `Graph::findRoute` (osm_graph.cpp:172). -/
def DOUBLE_MAX : ℚ := 179769313486231570814527423731704356798070567525844996598917476803157260780028538760589558632766878171540458953514382464234321326889464182768467546703537516986049910576551282076245490090389328944075868508455133942304583236903222948165808559332123348274797826204144723168738177180919299881250404026184124858368

/-- `OSMNode` (osm.h:185, osm.cpp:130-150): id, version, tag list and
latitude/longitude coordinates. -/
structure OSMNode where
  id : Int
  version : Int
  tags : List (String × String)
  lat : ℚ
  lon : ℚ
  deriving DecidableEq, Repr

/-- `OSMNode::asVector` returns `glm::vec2(lon, lat)` (osm.cpp:147). -/
def OSMNode.asVector (nd : OSMNode) : ℚ × ℚ := (nd.lon, nd.lat)

/-- `OSMWay` (osm.h:263): id, version, tags and the ordered list of node
references. -/
structure OSMWay where
  id : Int
  version : Int
  tags : List (String × String)
  nodes : List Int
  deriving DecidableEq, Repr

/-- `RelationMember` (osm.h:320): a target id (`index`) and a role string
(`type`). -/
structure RelationMember where
  index : Int
  type : String
  deriving DecidableEq, Repr

/-- `OSMRelation` (osm.h:353): id, version, tags, and the three typed
member lists. -/
structure OSMRelation where
  id : Int
  version : Int
  tags : List (String × String)
  nodes : List RelationMember
  ways : List RelationMember
  relations : List RelationMember
  deriving DecidableEq, Repr

/-- The id-to-index hash maps (`robin_hood::unordered_node_map<int64_t,
size_t>`, osm.h:425), modelled as association lists with at most one
entry per key. -/
abbrev IdMap := List (Int × Nat)

/-- Hash-map lookup (`map->find(id)`). -/
def mapFind (m : IdMap) (k : Int) : Option Nat :=
  match m.find? (fun p => p.1 == k) with
  | some p => some p.2
  | none => none

/-- Hash-map `operator[] = v` assignment: overwrites the entry if the key
is present, otherwise appends a fresh entry. -/
def mapAssign (m : IdMap) (k : Int) (v : Nat) : IdMap :=
  if (m.find? (fun p => p.1 == k)).isSome then
    m.map (fun p => if p.1 == k then (k, v) else p)
  else
    m ++ [(k, v)]

/-- Hash-map `operator[]` read access, which default-inserts `0` when the
key is absent (the semantics `Graph::findRoute` relies on at
osm_graph.cpp:184,216). Returns the value and the possibly-extended map. -/
def mapGetOrInsert (m : IdMap) (k : Int) : Nat × IdMap :=
  match mapFind m k with
  | some v => (v, m)
  | none => (0, m ++ [(k, 0)])

/-- `XMLMap` (osm.h:413): boundary rectangle fields, the three entity
collections and their id-to-index maps. -/
structure XMLMap where
  lowerLat : ℚ
  upperLat : ℚ
  lowerLon : ℚ
  upperLon : ℚ
  nodeList : List OSMNode
  wayList : List OSMWay
  relationList : List OSMRelation
  nodeMap : IdMap
  wayMap : IdMap
  relationMap : IdMap
  deriving DecidableEq, Repr

/-- One scan step of `recalculateBoundaries`'s min/max loop
(osm.cpp:329-334); the state is `(latMax, latMin, lonMax, lonMin)`. -/
def boundStep (st : ℚ × ℚ × ℚ × ℚ) (nd : OSMNode) : ℚ × ℚ × ℚ × ℚ :=
  let latMax := if nd.lat > st.1 then nd.lat else st.1
  let latMin := if nd.lat < st.2.1 then nd.lat else st.2.1
  let lonMax := if nd.lon > st.2.2.1 then nd.lon else st.2.2.1
  let lonMin := if nd.lon < st.2.2.2 then nd.lon else st.2.2.2
  (latMax, latMin, lonMax, lonMin)

/-- `XMLMap::recalculateBoundaries` (osm.cpp:317-340). Note the source
initializes the max-trackers with `numeric_limits<float>::min()` (the
smallest positive float), not the most negative float. -/
def recalculateBoundaries (m : XMLMap) : XMLMap :=
  if m.nodeList.isEmpty then
    { m with lowerLat := -90, lowerLon := -180, upperLat := 90, upperLon := 180 }
  else
    let st := m.nodeList.foldl boundStep (FLOAT_MIN, FLOAT_MAX, FLOAT_MIN, FLOAT_MAX)
    { m with lowerLat := st.2.1, upperLat := st.1, lowerLon := st.2.2.2, upperLon := st.2.2.1 }

/-- `XMLMap::XMLMap()` (osm.cpp:280-290): empty collections followed by
`recalculateBoundaries`. -/
def XMLMap.mkEmpty : XMLMap :=
  recalculateBoundaries
    { lowerLat := 0, upperLat := 0, lowerLon := 0, upperLon := 0
      nodeList := [], wayList := [], relationList := []
      nodeMap := [], wayMap := [], relationMap := [] }

/-- `XMLMap::hasNodes` (osm.cpp:370) — returns `nodeList->empty()`. -/
def hasNodes (m : XMLMap) : Bool := m.nodeList.isEmpty

/-- `XMLMap::hasWays` (osm.cpp:371) — returns `wayList->empty()`. -/
def hasWays (m : XMLMap) : Bool := m.wayList.isEmpty

/-- `XMLMap::hasRelations` (osm.cpp:372) — returns `relationList->empty()`. -/
def hasRelations (m : XMLMap) : Bool := m.relationList.isEmpty

/-- `XMLMap::empty` (osm.cpp:373) —
`!hasNodes() && !hasWays() && !hasRelations()`. -/
def XMLMap.empty (m : XMLMap) : Bool :=
  !hasNodes m && !hasWays m && !hasRelations m

/-- `XMLMap::getNodeIndex` (osm.cpp:429-432): the stored index, or
`SIZE_MAX` when the id is absent. -/
def getNodeIndex (m : XMLMap) (id : Int) : Nat :=
  match mapFind m.nodeMap id with
  | some v => v
  | none => SIZE_MAX

/-- `XMLMap::getWayIndex` (osm.cpp:433-436). -/
def getWayIndex (m : XMLMap) (id : Int) : Nat :=
  match mapFind m.wayMap id with
  | some v => v
  | none => SIZE_MAX

/-- `XMLMap::getRelationIndex` (osm.cpp:437-440). -/
def getRelationIndex (m : XMLMap) (id : Int) : Nat :=
  match mapFind m.relationMap id with
  | some v => v
  | none => SIZE_MAX

/-- `XMLMap::getNode` (osm.cpp:500): `(*nodeList)[getNodeIndex(id)]`.
`none` models the out-of-bounds subscript (undefined behaviour) taken
when the index is stale or the id is absent. -/
def getNode (m : XMLMap) (id : Int) : Option OSMNode :=
  m.nodeList.get? (getNodeIndex m id)

/-- `XMLMap::getWay` (osm.cpp:501). -/
def getWay (m : XMLMap) (id : Int) : Option OSMWay :=
  m.wayList.get? (getWayIndex m id)

/-- `XMLMap::getRelation` (osm.cpp:502). -/
def getRelation (m : XMLMap) (id : Int) : Option OSMRelation :=
  m.relationList.get? (getRelationIndex m id)

/-- The boundary-extension step of `XMLMap::addNode` (osm.cpp:452-457):
note the `else if` structure on each axis. -/
def extendBounds (m : XMLMap) (nd : OSMNode) : XMLMap :=
  let m1 :=
    if nd.lat < m.lowerLat then { m with lowerLat := nd.lat }
    else if nd.lat > m.upperLat then { m with upperLat := nd.lat }
    else m
  if nd.lon < m1.lowerLon then { m1 with lowerLon := nd.lon }
  else if nd.lon > m1.upperLon then { m1 with upperLon := nd.lon }
  else m1

/-- `XMLMap::addNode` (osm.cpp:446-459): early `false` return on a
duplicate id, otherwise index assignment, append, and (optionally)
incremental boundary extension. -/
def addNode (m : XMLMap) (nd : OSMNode) (updateBoundaries : Bool := true) :
    Bool × XMLMap :=
  match mapFind m.nodeMap nd.id with
  | some _ => (false, m)
  | none =>
    let m1 := { m with
      nodeMap := mapAssign m.nodeMap nd.id m.nodeList.length,
      nodeList := m.nodeList ++ [nd] }
    (true, if updateBoundaries then extendBounds m1 nd else m1)

/-- The add-children loop of `XMLMap::addWay` (osm.cpp:469-477): for each
node reference, skip when the source lookup yields `SIZE_MAX`, otherwise
insert `map.getNode(id)`; a stale (out-of-range) index is an
out-of-bounds subscript, modelled as `none`. -/
def addWayChildren (src : XMLMap) (updateBoundaries : Bool) :
    List Int → XMLMap → Option XMLMap
  | [], m => some m
  | id :: rest, m =>
    if getNodeIndex src id = SIZE_MAX then
      addWayChildren src updateBoundaries rest m
    else
      match getNode src id with
      | none => none
      | some nd => addWayChildren src updateBoundaries rest (addNode m nd updateBoundaries).2

/-- `XMLMap::addWay` (osm.cpp:461-479). -/
def addWay (m : XMLMap) (wd : OSMWay) (src : XMLMap)
    (addChildren : Bool := true) (updateBoundaries : Bool := true) :
    Option (Bool × XMLMap) :=
  match mapFind m.wayMap wd.id with
  | some _ => some (false, m)
  | none =>
    let m1 := { m with
      wayMap := mapAssign m.wayMap wd.id m.wayList.length,
      wayList := m.wayList ++ [wd] }
    if addChildren then
      match addWayChildren src updateBoundaries wd.nodes m1 with
      | none => none
      | some m2 => some (true, m2)
    else
      some (true, m1)

/-- `XMLMap::addRelation` (osm.cpp:481-498), with a recursion-depth fuel:
the source recurses through member relations with no cycle protection, so
a cyclic relation graph does not terminate; `none` also covers the
out-of-bounds `map.getNode/getWay/getRelation` subscripts taken in the
add-children loops (which have no `SIZE_MAX` guard here). -/
def addRelationFuel : Nat → XMLMap → OSMRelation → XMLMap → Bool → Bool →
    Option (Bool × XMLMap)
  | 0, _, _, _, _, _ => none
  | fuel + 1, m, re, src, addChildren, updateBoundaries =>
    match mapFind m.relationMap re.id with
    | some _ => some (false, m)
    | none =>
      let m1 := { m with
        relationMap := mapAssign m.relationMap re.id m.relationList.length,
        relationList := m.relationList ++ [re] }
      if addChildren then do
        let m2 ← re.nodes.foldlM (fun acc mem =>
          match getNode src mem.index with
          | none => none
          | some nd => some (addNode acc nd updateBoundaries).2) m1
        let m3 ← re.ways.foldlM (fun acc mem =>
          match getWay src mem.index with
          | none => none
          | some wd => (addWay acc wd src true updateBoundaries).map (·.2)) m2
        let m4 ← re.relations.foldlM (fun acc mem =>
          match getRelation src mem.index with
          | none => none
          | some r2 => (addRelationFuel fuel acc r2 src true updateBoundaries).map (·.2)) m3
        some (true, m4)
      else
        some (true, m1)

/-- The node-collection pass of `XMLMap::findNodes` (osm.h:503-505):
`if (funcNodes(nd)) map.addNode(nd)` over the whole node list. -/
def findNodesPass1 (fn : OSMNode → Bool) (l : List OSMNode) (acc : XMLMap) : XMLMap :=
  l.foldl (fun acc nd => if fn nd then (addNode acc nd).2 else acc) acc

/-- The per-way reference filter of `XMLMap::findNodes` (osm.h:508-512):
every reference is resolved through `getNode` (an out-of-bounds subscript,
modelled `none`, when it does not resolve), and kept when the way-node
predicate accepts the resolved node. -/
def filterWayRefs (src : XMLMap) (wd : OSMWay) (fwn : OSMWay → OSMNode → Bool) :
    List Int → Option (List Int)
  | [] => some []
  | id :: rest =>
    match getNode src id with
    | none => none
    | some nd =>
      match filterWayRefs src wd fwn rest with
      | none => none
      | some st => some (if fwn wd nd then id :: st else st)

/-- The way-collection pass of `XMLMap::findNodes` (osm.h:506-518): an
accepted way with a non-empty filtered reference list is re-created with
the filtered references and inserted with `map.addWay(w, *this)` (default
`addChildren = true`, `updateBoundaries = true`). -/
def findNodesPass2 (src : XMLMap) (fw : OSMWay → Bool) (fwn : OSMWay → OSMNode → Bool) :
    List OSMWay → XMLMap → Option XMLMap
  | [], acc => some acc
  | wd :: rest, acc =>
    if fw wd then
      match filterWayRefs src wd fwn wd.nodes with
      | none => none
      | some st =>
        if st.isEmpty then findNodesPass2 src fw fwn rest acc
        else
          match addWay acc { id := wd.id, version := wd.version, tags := wd.tags, nodes := st } src with
          | none => none
          | some (_, acc') => findNodesPass2 src fw fwn rest acc'
    else findNodesPass2 src fw fwn rest acc

/-- `XMLMap::findNodes` (osm.h:495-520). -/
def findNodes (m : XMLMap) (fn : OSMNode → Bool) (fw : OSMWay → Bool)
    (fwn : OSMWay → OSMNode → Bool) : Option XMLMap :=
  findNodesPass2 m fw fwn m.wayList (findNodesPass1 fn m.nodeList XMLMap.mkEmpty)

/-- Modelled from the spec: `Rect` lives in `geom.h`, which is not under
`src/`; per spec §3 a bounding rectangle is min/max latitude and min/max
longitude, built by `Rect::fromBorders(lowerLat, upperLat, lowerLon,
upperLon)` (osm.cpp:508, osm.h:564). -/
structure Rect where
  lowerLat : ℚ
  upperLat : ℚ
  lowerLon : ℚ
  upperLon : ℚ
  deriving DecidableEq, Repr

/-- Modelled from the spec: `Rect::fromBorders` (geom.h is absent from
`src/`). -/
def Rect.fromBorders (lowerLat upperLat lowerLon upperLon : ℚ) : Rect :=
  ⟨lowerLat, upperLat, lowerLon, upperLon⟩

/-- Modelled from the spec: `Rect::contains(Point(lat, lon))` (geom.h is
absent from `src/`) — the point lies within the min/max bounds. -/
def Rect.containsPt (r : Rect) (lat lon : ℚ) : Bool :=
  decide (r.lowerLat ≤ lat) && decide (lat ≤ r.upperLat) &&
  decide (r.lowerLon ≤ lon) && decide (lon ≤ r.upperLon)

/-- `XMLMap::findSquareNodes(const Rect&)` (osm.cpp:537-543): `findNodes`
with rectangle-containment node and way-node predicates and an
accept-all way predicate. -/
def findSquareNodes (m : XMLMap) (r : Rect) : Option XMLMap :=
  findNodes m
    (fun nd => r.containsPt nd.lat nd.lon)
    (fun _ => true)
    (fun _ nd => r.containsPt nd.lat nd.lon)

/-! ### Concurrent ingestion engine (parser.cpp)

The shared mutable state (`ParseInfo`, parser.cpp:119-139) holds the three
merged collections and their id-to-index maps; a worker's thread-local
batches are plain lists. A lock is modelled by whether some other thread
currently holds it; `AtomicLock`'s implementation is not under `src/`
(only its declaration in engine.h), so `try_lock` is modelled from the
spec: a non-blocking attempt that succeeds exactly when the lock is free. -/

/-- The shared collections and index maps of `ParseInfo`
(parser.cpp:130-138). -/
structure ParseInfo where
  nodeList : List OSMNode
  wayList : List OSMWay
  relationList : List OSMRelation
  nodeMap : IdMap
  wayMap : IdMap
  relationMap : IdMap
  deriving DecidableEq, Repr

/-- The per-worker configuration `LocalParseInfo` (parser.cpp:141-148)
with its in-class defaults. -/
structure LocalParseInfo where
  start : Int
  stride : Int
  merge : Bool := true
  bufferSize : Nat := 16 * 1024
  mergeSize : Nat := 8 * 1024
  deriving DecidableEq, Repr

/-- The worker configuration built by `parseXMLMap` (parser.cpp:604-610):
note `merge = false`. -/
def parseXMLMapLocal (i threads : Int) : LocalParseInfo :=
  { start := i, stride := threads, merge := false,
    bufferSize := 1024 * 16, mergeSize := 1024 * 8 }

/-- Append a batch into a shared collection, assigning each entity's
final position in the id→index map at merge time — the common body of
`ParseTask::updateNodes/updateWays/updateRelations` (parser.cpp:210-238).
The state is `(shared collection, shared map)`. -/
def mergeAppend {α : Type} (getId : α → Int) (batch : List α)
    (st : List α × IdMap) : List α × IdMap :=
  batch.foldl (fun st x => (st.1 ++ [x], mapAssign st.2 (getId x) st.1.length)) st

/-- `ParseTask::updateNodes` (parser.cpp:210-218): append the local node
batch into the shared collection and clear the batch. -/
def updateNodes (info : ParseInfo) (localNodeList : List OSMNode) :
    ParseInfo × List OSMNode :=
  let st := mergeAppend OSMNode.id localNodeList (info.nodeList, info.nodeMap)
  ({ info with nodeList := st.1, nodeMap := st.2 }, [])

/-- `ParseTask::updateWays` (parser.cpp:220-228). -/
def updateWays (info : ParseInfo) (localWayList : List OSMWay) :
    ParseInfo × List OSMWay :=
  let st := mergeAppend OSMWay.id localWayList (info.wayList, info.wayMap)
  ({ info with wayList := st.1, wayMap := st.2 }, [])

/-- `ParseTask::updateRelations` (parser.cpp:230-238). -/
def updateRelations (info : ParseInfo) (localRelationList : List OSMRelation) :
    ParseInfo × List OSMRelation :=
  let st := mergeAppend OSMRelation.id localRelationList (info.relationList, info.relationMap)
  ({ info with relationList := st.1, relationMap := st.2 }, [])

/-- `tryMerge` (parser.cpp:106-117): if the batch holds at least
`1024 * 16` entries (a hardcoded constant — `LocalParseInfo::mergeSize`
is never consulted), attempt a non-blocking lock acquisition and, on
success, run the merge action; in every other case return `false` with
the state untouched. `lockHeld` says whether another thread holds the
lock, so `try_lock` succeeds exactly when it is `false`. -/
def tryMerge {α σ : Type} (vec : List α) (lockHeld : Bool) (action : σ → σ)
    (s : σ) : Bool × σ :=
  if vec.length ≥ 1024 * 16 then
    if lockHeld then (false, s) else (true, action s)
  else (false, s)

/-- The node-branch merge hook of the worker loop (parser.cpp:262-265):
`tryMerge` runs only when `local.merge` is set. The state threads the
shared `ParseInfo` together with the worker's local node batch. -/
def parseLoopNodeMerge (lp : LocalParseInfo) (info : ParseInfo)
    (localNodeList : List OSMNode) (lockHeld : Bool) :
    ParseInfo × List OSMNode :=
  if lp.merge then
    (tryMerge localNodeList lockHeld (fun st => updateNodes st.1 st.2)
      (info, localNodeList)).2
  else (info, localNodeList)

/-! ### Graph builder and routing engine (osm_graph.cpp)

`osm_graph.h` is not under `src/`; the `Graph`, `GraphNode`, `GraphEdge`
and `Route` layouts are taken from their uses and member definitions in
`osm_graph.cpp`. The segment type consumed by the builder (`OSMSegment`)
is the map container modelled above as `XMLMap`. `glm::distance` is
external library code, so graph construction is parameterized by the
distance function `d`; the theorems constrain `d` to planar Euclidean
distance on the points they use. -/

/-- `GraphEdge` (osm_graph.cpp:94-97): target node id and weight. -/
structure GraphEdge where
  goal : Int
  weight : ℚ
  deriving DecidableEq, Repr

/-- `GraphNode` (osm_graph.cpp:70-90): id, position and adjacency list. -/
structure GraphNode where
  nodeID : Int
  lat : ℚ
  lon : ℚ
  connections : List GraphEdge
  deriving DecidableEq, Repr

instance : Inhabited GraphNode := ⟨⟨0, 0, 0, []⟩⟩

/-- The `GraphNode(const OSMNode&)` constructor (osm_graph.cpp:70-75). -/
def GraphNode.fromOSM (nd : OSMNode) : GraphNode :=
  { nodeID := nd.id, lat := nd.lat, lon := nd.lon, connections := [] }

/-- `Graph` (osm_graph.cpp): the node buffer and the id→index map. -/
structure Graph where
  graphBuffer : List GraphNode
  graphMap : IdMap
  deriving DecidableEq, Repr

/-- In-place update of one vector element (`buf[i] = ...` effects). All
uses below are in bounds in every reachable state. -/
def listModify {α : Type} : List α → Nat → (α → α) → List α
  | [], _, _ => []
  | x :: xs, 0, f => f x :: xs
  | x :: xs, i + 1, f => x :: listModify xs i f

/-- Append one edge to `graphBuffer[i].connections` (osm_graph.cpp:142). -/
def pushEdge (buf : List GraphNode) (i : Nat) (e : GraphEdge) : List GraphNode :=
  listModify buf i (fun n => { n with connections := n.connections ++ [e] })

/-- The both-directions edge insertion of the `Graph` constructor
(osm_graph.cpp:139-143 and 154-158): resolve both endpoint nodes from the
segment, compute the distance, and push onto `connections` of the current
index first, then of the last index. -/
def addEdgePair (d : ℚ × ℚ → ℚ × ℚ → ℚ) (src : XMLMap) (lastID currentID : Int)
    (lastIndex currentIndex : Nat) (buf : List GraphNode) : Option (List GraphNode) :=
  match getNode src lastID, getNode src currentID with
  | some a, some b =>
    let w := d a.asVector b.asVector
    some (pushEdge (pushEdge buf currentIndex ⟨lastID, w⟩) lastIndex ⟨currentID, w⟩)
  | _, _ => none

/-- One step of the `Graph` constructor's inner loop over a way's node
references (osm_graph.cpp:124-162). The state is the graph under
construction plus the `lastID` cursor (initialized to `-1`). -/
def buildGraphStep (d : ℚ × ℚ → ℚ × ℚ → ℚ) (src : XMLMap) :
    Graph × Int → Int → Option (Graph × Int)
  | (g, lastID), currentID =>
    match mapFind g.graphMap currentID with
    | none =>
      let currentIndex := g.graphBuffer.length
      match getNode src currentID with
      | none => none
      | some nd =>
        let buf := g.graphBuffer ++ [GraphNode.fromOSM nd]
        let map := mapAssign g.graphMap currentID currentIndex
        if lastID ≠ -1 then
          let li := mapGetOrInsert map lastID
          match addEdgePair d src lastID currentID li.1 currentIndex buf with
          | none => none
          | some buf' => some (⟨buf', li.2⟩, currentID)
        else some (⟨buf, map⟩, currentID)
    | some currentIndex =>
      if lastID ≠ -1 then
        let li := mapGetOrInsert g.graphMap lastID
        match addEdgePair d src lastID currentID li.1 currentIndex g.graphBuffer with
        | none => none
        | some buf' => some (⟨buf', li.2⟩, currentID)
      else some (g, currentID)

/-- One way of the `Graph` constructor (osm_graph.cpp:120-163). -/
def buildGraphWay (d : ℚ × ℚ → ℚ × ℚ → ℚ) (src : XMLMap) (g : Graph)
    (wd : OSMWay) : Option Graph :=
  (wd.nodes.foldlM (buildGraphStep d src) (g, -1)).map (·.1)

/-- The `Graph::Graph(shared_ptr<OSMSegment>)` constructor
(osm_graph.cpp:113-164), iterating over all ways of the segment. -/
def buildGraph (d : ℚ × ℚ → ℚ × ℚ → ℚ) (src : XMLMap) : Option Graph :=
  src.wayList.foldlM (buildGraphWay d src) ⟨[], []⟩

/-- `Graph::countEdges` (osm_graph.cpp:271-277). -/
def countEdges (g : Graph) : Nat :=
  g.graphBuffer.foldl (fun sum n => sum + n.connections.length) 0

/-- The per-node search record `BufferedNode` (osm_graph.cpp:46-57). The
`node` pointer is implicit: the record at position `i` of the search
array belongs to `graphBuffer[i]` (osm_graph.cpp:175); the `previous`
back-pointer is the index of the predecessor record, `none` for the null
pointer. -/
structure BufferedNode where
  previous : Option Nat
  distance : ℚ
  visited : Bool
  deriving DecidableEq, Repr

instance : Inhabited BufferedNode := ⟨⟨none, 0, false⟩⟩

/-- Outcome of `Graph::findRoute`: a reconstructed route, the no-route
`Route()` result, undefined behaviour (null or out-of-bounds
dereference), or exhaustion of the modelling fuel. -/
inductive RouteResult where
  | found (nodes : List Int)
  | noRoute
  | ub
  | fuelOut
  deriving DecidableEq, Repr

/-- The element the priority queue pop yields: the earliest-pushed entry
whose current distance is minimal. (The source's `std::priority_queue`
holds `BufferedNode*` and compares the pointees' current `distance`
values (osm_graph.cpp:179-182); its pop order among equal keys — or keys
mutated after insertion — is unspecified, and the runs the theorems below
evaluate never present such a tie, so every determinization agrees with
this one.) -/
def queueBest (nodes : List BufferedNode) : List Nat → Option Nat
  | [] => none
  | i :: rest =>
    match queueBest nodes rest with
    | none => some i
    | some j =>
      if (nodes.getD j default).distance < (nodes.getD i default).distance
      then some j else some i

/-- The back-pointer walk of `findRoute` (osm_graph.cpp:203-211):
`do { route.addNode(id); cur = cur->previous; } while (cur->node->nodeID
!= start)` — the node whose id equals `start` is never appended, and a
null `previous` is dereferenced by the loop condition (`ub`). The fuel
only guards against a cyclic back-pointer chain, where the source loops
forever; a chain of distinct records is shorter than the fuel the caller
passes. -/
def backtrack (buffer : List GraphNode) (nodes : List BufferedNode) (start : Int) :
    Nat → Nat → List Int → RouteResult
  | 0, _, _ => .fuelOut
  | fuel + 1, cur, acc =>
    let acc' := acc ++ [(buffer.getD cur default).nodeID]
    match (nodes.getD cur default).previous with
    | none => .ub
    | some prev =>
      if (buffer.getD prev default).nodeID ≠ start then
        backtrack buffer nodes start fuel prev acc'
      else .found acc'

/-- One iteration of the edge loop of `findRoute` (osm_graph.cpp:213-235)
for the record at index `cur`: resolve the edge target through
`graphMap[...]` (`operator[]`, osm_graph.cpp:216), skip a visited
neighbor, relax the distance and back-pointer on improvement, and push
the neighbor index — the push is unconditional for unvisited neighbors
(osm_graph.cpp:234). The current distance is re-read from the state, as
the source reads it through a pointer. `none` models the out-of-bounds
`nodes[nodeIndex]` subscript reachable only with a corrupt map. -/
def relaxStep (cur : Nat) (st : List BufferedNode × IdMap × List Nat)
    (e : GraphEdge) : Option (List BufferedNode × IdMap × List Nat) :=
  let nodes := st.1
  let ni := mapGetOrInsert st.2.1 e.goal
  if ni.1 < nodes.length then
    let next := nodes.getD ni.1 default
    if next.visited then some (nodes, ni.2, st.2.2)
    else
      let newDistance := (nodes.getD cur default).distance + e.weight
      let nodes' :=
        if newDistance < next.distance then
          listModify nodes ni.1 (fun b => { b with distance := newDistance, previous := some cur })
        else nodes
      some (nodes', ni.2, st.2.2 ++ [ni.1])
  else none

/-- The main loop of `Graph::findRoute` (osm_graph.cpp:188-238): return
`Route()` on an empty queue; pop the minimum; on reaching the goal,
reconstruct by back-pointers; otherwise relax all edges and mark the
popped record visited. The returned map is the (possibly
`operator[]`-extended) `graphMap`. -/
def findRouteLoop (buffer : List GraphNode) (start goal : Int) :
    Nat → List BufferedNode → IdMap → List Nat → RouteResult × IdMap
  | 0, _, map, _ => (.fuelOut, map)
  | fuel + 1, nodes, map, q =>
    match queueBest nodes q with
    | none => (.noRoute, map)
    | some cur =>
      let q1 := q.erase cur
      if (buffer.getD cur default).nodeID == goal then
        (backtrack buffer nodes start (nodes.length + 1) cur [], map)
      else
        match (buffer.getD cur default).connections.foldlM (relaxStep cur) (nodes, map, q1) with
        | none => (.ub, map)
        | some st =>
          findRouteLoop buffer start goal fuel
            (listModify st.1 cur (fun b => { b with visited := true })) st.2.1 st.2.2

/-- `Graph::findRoute` (osm_graph.cpp:166-239) with an explicit fuel for
the unbounded `while (true)` loop: initialize every record to distance
`DBL_MAX`/unvisited/null-previous, resolve the start index through
`graphMap[start]` (`operator[]`: an absent start id inserts `{start, 0}`
into the map, osm_graph.cpp:184), seed the queue with the start record,
and run the loop. `ub` covers the `nodes[startIndex]` subscript when the
resolved start index is out of range (an empty buffer). -/
def findRouteFuel (g : Graph) (start goal : Int) (fuel : Nat) :
    RouteResult × Graph :=
  let nodeCount := g.graphBuffer.length
  let nodes : List BufferedNode :=
    List.replicate nodeCount { previous := none, distance := DOUBLE_MAX, visited := false }
  let si := mapGetOrInsert g.graphMap start
  if si.1 < nodeCount then
    let nodes := listModify nodes si.1 (fun b => { b with distance := 0 })
    let r := findRouteLoop g.graphBuffer start goal fuel nodes si.2 [si.1]
    (r.1, { g with graphMap := r.2 })
  else
    (.ub, { g with graphMap := si.2 })

/-- `Graph::findRoute` at a fuel far above any possible iteration count
of the loop for the given graph (a node is pushed only while unvisited,
so the loop always terminates; the theorems that need fuel-independence
quantify over the fuel of `findRouteFuel` directly). -/
def findRoute (g : Graph) (start goal : Int) : RouteResult × Graph :=
  findRouteFuel g start goal (2 ^ (2 * (g.graphBuffer.length + countEdges g) + 4))

/-- The weight of the first edge `a → b` recorded in the graph, `0` when
there is none (used to state path-weight facts about built graphs). -/
def edgeWeight (g : Graph) (a b : Int) : ℚ :=
  match mapFind g.graphMap a with
  | some i =>
    match (g.graphBuffer.getD i default).connections.find? (fun e => e.goal == b) with
    | some e => e.weight
    | none => 0
  | none => 0

/-- Sum of the edge weights along consecutive pairs of a node sequence. -/
def pathWeight (g : Graph) : List Int → ℚ
  | a :: b :: rest => edgeWeight g a b + pathWeight g (b :: rest)
  | _ => 0

/-! ### Invariants and fixtures used by the theorems -/

instance : Inhabited OSMNode := ⟨⟨0, 0, [], 0, 0⟩⟩

instance : Inhabited OSMWay := ⟨⟨0, 0, [], []⟩⟩

instance : Inhabited OSMRelation := ⟨⟨0, 0, [], [], [], []⟩⟩

/-- Every entry of an id→index map addresses a live position of its
collection holding an entity with that id (spec §3's Segment index
invariant). -/
def idxPointsTo {α : Type} [Inhabited α] (getId : α → Int) (l : List α)
    (map : IdMap) : Prop :=
  ∀ p ∈ map, p.2 < l.length ∧ getId (l.getD p.2 default) = p.1

/-- The index part of the Segment invariant for all three collections. -/
def IndexInv (m : XMLMap) : Prop :=
  idxPointsTo OSMNode.id m.nodeList m.nodeMap ∧
  idxPointsTo OSMWay.id m.wayList m.wayMap ∧
  idxPointsTo OSMRelation.id m.relationList m.relationMap

/-- The boundary part of the Segment invariant: the rectangle is
well-formed and encloses every contained node. -/
def BoundsInv (m : XMLMap) : Prop :=
  (m.lowerLat ≤ m.upperLat ∧ m.lowerLon ≤ m.upperLon) ∧
  ∀ nd ∈ m.nodeList,
    (m.lowerLat ≤ nd.lat ∧ nd.lat ≤ m.upperLat) ∧
    (m.lowerLon ≤ nd.lon ∧ nd.lon ≤ m.upperLon)

/-- The index invariant of the shared ingestion state (`ParseInfo`). -/
def InfoInv (info : ParseInfo) : Prop :=
  idxPointsTo OSMNode.id info.nodeList info.nodeMap ∧
  idxPointsTo OSMWay.id info.wayList info.wayMap ∧
  idxPointsTo OSMRelation.id info.relationList info.relationMap

instance {α : Type} [Inhabited α] (getId : α → Int) (l : List α) (map : IdMap) :
    Decidable (idxPointsTo getId l map) :=
  inferInstanceAs (Decidable (∀ p ∈ map, p.2 < l.length ∧ getId (l.getD p.2 default) = p.1))

instance (m : XMLMap) : Decidable (IndexInv m) :=
  inferInstanceAs (Decidable (_ ∧ _ ∧ _))

instance (m : XMLMap) : Decidable (BoundsInv m) :=
  inferInstanceAs (Decidable (_ ∧ ∀ nd ∈ m.nodeList, _ ∧ _))

instance (info : ParseInfo) : Decidable (InfoInv info) :=
  inferInstanceAs (Decidable (_ ∧ _ ∧ _))

/-- The id→index map lists the collection's entities in order — the shape
the maps built by `addNode`/`addWay` insertions into a fresh segment have. -/
def canonIdx {α : Type} (getId : α → Int) : List α → Nat → IdMap
  | [], _ => []
  | x :: rest, i => (getId x, i) :: canonIdx getId rest (i + 1)

/-- Whether a way reference resolves to a node accepted by the way-node
predicate (the shape of the reference lists `findNodes` keeps). -/
def refAccept (m : XMLMap) (fwn : OSMWay → OSMNode → Bool) (wd : OSMWay)
    (id : Int) : Bool :=
  match getNode m id with
  | some nd => fwn wd nd
  | none => false

/-- The way `findNodes` re-creates from an accepted way: same id, version
and tags, carrying only the accepted references (osm.h:514). -/
def filteredWay (m : XMLMap) (fwn : OSMWay → OSMNode → Bool) (wd : OSMWay) : OSMWay :=
  { id := wd.id, version := wd.version, tags := wd.tags,
    nodes := wd.nodes.filter (refAccept m fwn wd) }

/-- Planar Euclidean distance restricted to points sharing a latitude
(all fixtures below are equal-latitude): `√((Δx)² + 0²) = |Δx|`, written
without `abs` so that it evaluates by kernel reduction. -/
def distAbs (p q : ℚ × ℚ) : ℚ :=
  if p.1 ≤ q.1 then q.1 - p.1 else p.1 - q.1

/-- A tagless node fixture. -/
def mkNode (i : Int) (lat lon : ℚ) : OSMNode := ⟨i, 1, [], lat, lon⟩

/-- Fixture: a segment whose single way is a 5-node line with
inter-node distances 1, 2, 3, 4 (nodes on the equator at longitudes
0, 1, 3, 6, 10). -/
def lineSeg : XMLMap :=
  { lowerLat := -90, upperLat := 90, lowerLon := -180, upperLon := 180
    nodeList := [mkNode 1 0 0, mkNode 2 0 1, mkNode 3 0 3, mkNode 4 0 6, mkNode 5 0 10]
    wayList := [⟨10, 1, [], [1, 2, 3, 4, 5]⟩]
    relationList := []
    nodeMap := [(1, 0), (2, 1), (3, 2), (4, 3), (5, 4)]
    wayMap := [(10, 0)]
    relationMap := [] }

/-- The graph the constructor builds from `lineSeg`: a 5-node line with
consecutive edge weights 1, 2, 3, 4 in both directions. -/
def lineGraph : Graph :=
  { graphBuffer :=
      [⟨1, 0, 0, [⟨2, 1⟩]⟩,
       ⟨2, 0, 1, [⟨1, 1⟩, ⟨3, 2⟩]⟩,
       ⟨3, 0, 3, [⟨2, 2⟩, ⟨4, 3⟩]⟩,
       ⟨4, 0, 6, [⟨3, 3⟩, ⟨5, 4⟩]⟩,
       ⟨5, 0, 10, [⟨4, 4⟩]⟩]
    graphMap := [(1, 0), (2, 1), (3, 2), (4, 3), (5, 4)] }

/-- Fixture: a two-node segment with one way. -/
def twoSeg : XMLMap :=
  { lowerLat := -90, upperLat := 90, lowerLon := -180, upperLon := 180
    nodeList := [mkNode 1 0 0, mkNode 2 0 1]
    wayList := [⟨20, 1, [], [1, 2]⟩]
    relationList := []
    nodeMap := [(1, 0), (2, 1)]
    wayMap := [(20, 0)]
    relationMap := [] }

/-- Fixture: a segment with one node at latitude 0, longitude 0 (every
coordinate maximum is 0, below `FLT_MIN`). -/
def originSeg : XMLMap :=
  { lowerLat := -90, upperLat := 90, lowerLon := -180, upperLon := 180
    nodeList := [mkNode 1 0 0]
    wayList := [], relationList := []
    nodeMap := [(1, 0)], wayMap := [], relationMap := [] }

/-- Fixture: an empty shared ingestion state. -/
def info0 : ParseInfo := ⟨[], [], [], [], [], []⟩

/-- Fixture: a worker batch of 8192 entries — above the spec's 8K merge
threshold, below the hardcoded 16K of `tryMerge`. -/
def batch8K : List OSMNode := List.replicate 8192 (mkNode 1 0 0)

/-- Fixture: a mixed inside/outside segment for the rectangle query:
nodes 1 and 3 lie inside the unit rectangle, node 2 outside; way 30
references only the outside node, way 31 references one inside and one
outside node. -/
def mixedSeg : XMLMap :=
  { lowerLat := -90, upperLat := 90, lowerLon := -180, upperLon := 180
    nodeList := [mkNode 1 (1/2) (1/2), mkNode 2 2 2, mkNode 3 (1/4) (1/4)]
    wayList := [⟨30, 1, [], [2]⟩, ⟨31, 1, [], [1, 2]⟩]
    relationList := []
    nodeMap := [(1, 0), (2, 1), (3, 2)]
    wayMap := [(30, 0), (31, 1)]
    relationMap := [] }

/-- The unit rectangle. -/
def unitRect : Rect := ⟨0, 1, 0, 1⟩

/-- Fixture: a segment whose single way holds a node reference (99) that
does not resolve. -/
def danglingSeg : XMLMap :=
  { lowerLat := -90, upperLat := 90, lowerLon := -180, upperLon := 180
    nodeList := [mkNode 1 0 0]
    wayList := [⟨40, 1, [], [1, 99]⟩]
    relationList := []
    nodeMap := [(1, 0)]
    wayMap := [(40, 0)]
    relationMap := [] }

set_option maxRecDepth 40000

/-! ### Supporting lemmas -/

theorem mergeAppend_collection {α : Type} (getId : α → Int) (batch : List α) :
    ∀ (l : List α) (map : IdMap),
      (mergeAppend getId batch (l, map)).1 = l ++ batch := by
  induction batch with
  | nil => intro l map; simp [mergeAppend]
  | cons x xs ih =>
    intro l map
    show (mergeAppend getId xs (l ++ [x], mapAssign map (getId x) l.length)).1 = _
    rw [ih]
    simp

/-! ### Claim theorems -/

/-- C10: `hasNodes()`, `hasWays()` and `hasRelations()` return `true`
exactly when the respective collection is empty, and `empty()` returns
`true` exactly when all three collections are non-empty. -/
theorem c10_predicates_inverted (m : XMLMap) :
    (hasNodes m = true ↔ m.nodeList = []) ∧
    (hasWays m = true ↔ m.wayList = []) ∧
    (hasRelations m = true ↔ m.relationList = []) ∧
    (XMLMap.empty m = true ↔
      (m.nodeList ≠ [] ∧ m.wayList ≠ [] ∧ m.relationList ≠ [])) := by
  simp [hasNodes, hasWays, hasRelations, XMLMap.empty, List.isEmpty_iff, and_assoc]

/-- C8 (failing run): on a segment whose single node sits at latitude 0,
longitude 0, `recalculateBoundaries` leaves both maxima at
`numeric_limits<float>::min()` — a small positive value — instead of the
true maxima 0, because the scan's max-trackers are initialized with
`float::min()` (the smallest positive float) rather than the lowest
float; the minima are computed correctly. -/
theorem c8_recalculate_boundaries_not_tight :
    (recalculateBoundaries originSeg).upperLat = FLOAT_MIN ∧
    (recalculateBoundaries originSeg).upperLon = FLOAT_MIN ∧
    (recalculateBoundaries originSeg).lowerLat = 0 ∧
    (recalculateBoundaries originSeg).lowerLon = 0 ∧
    (∀ nd ∈ originSeg.nodeList, nd.lat ≤ 0 ∧ nd.lon ≤ 0) ∧
    (0 : ℚ) < FLOAT_MIN := by
  refine ⟨?_, ?_, ?_, ?_, ?_, ?_⟩
  · with_unfolding_all rfl
  · with_unfolding_all rfl
  · with_unfolding_all rfl
  · with_unfolding_all rfl
  · with_unfolding_all decide
  · with_unfolding_all decide

/-- C2 (failing run): on the graph built from the two-node segment,
`findRoute(1, 1)` immediately satisfies the goal test at the start
record, and the back-pointer walk dereferences the start record's null
`previous` pointer (undefined behaviour) instead of returning the
single-node route the spec requires. -/
theorem c2_self_route_null_deref :
    (buildGraph distAbs twoSeg).map (fun g => (findRoute g 1 1).1) =
      some RouteResult.ub := by
  with_unfolding_all rfl

/-- C6: inserting an entity whose identifier is already indexed returns
`false` and leaves the segment unchanged — for `addNode`, `addWay` and
`addRelation` (the latter at any recursion budget). -/
theorem c6_duplicate_insert_is_noop :
    (∀ (m : XMLMap) (nd : OSMNode) (b : Bool),
      mapFind m.nodeMap nd.id ≠ none → addNode m nd b = (false, m)) ∧
    (∀ (m : XMLMap) (wd : OSMWay) (src : XMLMap) (ac b : Bool),
      mapFind m.wayMap wd.id ≠ none → addWay m wd src ac b = some (false, m)) ∧
    (∀ (fuel : Nat) (m : XMLMap) (re : OSMRelation) (src : XMLMap) (ac b : Bool),
      mapFind m.relationMap re.id ≠ none →
      addRelationFuel (fuel + 1) m re src ac b = some (false, m)) := by
  refine ⟨?_, ?_, ?_⟩
  · intro m nd b h
    cases hm : mapFind m.nodeMap nd.id with
    | none => exact absurd hm h
    | some v => simp [addNode, hm]
  · intro m wd src ac b h
    cases hm : mapFind m.wayMap wd.id with
    | none => exact absurd hm h
    | some v => simp [addWay, hm]
  · intro fuel m re src ac b h
    cases hm : mapFind m.relationMap re.id with
    | none => exact absurd hm h
    | some v => simp [addRelationFuel, hm]

/-- Witness for C6 at a concrete duplicate insertion. -/
theorem c6_duplicate_insert_is_noop_witness :
    mapFind lineSeg.nodeMap (mkNode 1 5 5).id ≠ none ∧
    addNode lineSeg (mkNode 1 5 5) true = (false, lineSeg) :=
  ⟨by with_unfolding_all decide,
   c6_duplicate_insert_is_noop.1 lineSeg (mkNode 1 5 5) true
     (by with_unfolding_all decide)⟩

/-- C4 (counterexample run): a worker batch of 8192 entries has crossed
the configured 8K merge threshold, the lock is free, and yet `tryMerge`
performs no merge and leaves the state untouched — its size test is the
hardcoded `1024 * 16`, not `LocalParseInfo::mergeSize`. -/
theorem c4_8k_crossing_does_not_merge :
    (LocalParseInfo.mk 0 1 true (16 * 1024) (8 * 1024)).mergeSize ≤ batch8K.length ∧
    tryMerge batch8K false (fun st => updateNodes st.1 st.2) (info0, batch8K) =
      (false, (info0, batch8K)) := by
  constructor
  · rw [batch8K, List.length_replicate]
  · rw [tryMerge, batch8K, List.length_replicate, if_neg (by norm_num)]

/-- C4 (amended): `tryMerge` attempts the non-blocking acquisition only
once the batch reaches the hardcoded 16K entries; on a free lock it runs
the merge action, on a held lock (and below the threshold) it returns
`false` with the state untouched. The worker loop consults it only when
the `merge` flag is set, and `parseXMLMap` configures its workers with
`merge = false` (and the unused `mergeSize = 8K`). A merge appends the
batch to the shared collection and clears the batch. -/
theorem c4_merge_protocol :
    (∀ (α σ : Type) (vec : List α) (lockHeld : Bool) (action : σ → σ) (s : σ),
      (vec.length ≥ 1024 * 16 →
        tryMerge vec lockHeld action s =
          if lockHeld then (false, s) else (true, action s)) ∧
      (vec.length < 1024 * 16 → tryMerge vec lockHeld action s = (false, s))) ∧
    (∀ (lp : LocalParseInfo) (info : ParseInfo) (lnl : List OSMNode) (lk : Bool),
      lp.merge = false → parseLoopNodeMerge lp info lnl lk = (info, lnl)) ∧
    (∀ i threads : Int,
      (parseXMLMapLocal i threads).merge = false ∧
      (parseXMLMapLocal i threads).mergeSize = 1024 * 8) ∧
    (∀ (info : ParseInfo) (batch : List OSMNode),
      (updateNodes info batch).1.nodeList = info.nodeList ++ batch ∧
      (updateNodes info batch).2 = []) := by
  refine ⟨?_, ?_, ?_, ?_⟩
  · intro α σ vec lockHeld action s
    constructor
    · intro h
      cases lockHeld <;> simp [tryMerge, h]
    · intro h
      simp [tryMerge, Nat.not_le.mpr h]
  · intro lp info lnl lk h
    simp [parseLoopNodeMerge, h]
  · intro i threads
    exact ⟨rfl, rfl⟩
  · intro info batch
    exact ⟨by simp [updateNodes, mergeAppend_collection], rfl⟩

theorem mapGetOrInsert_of_present {m : IdMap} {k : Int} {v : Nat}
    (h : mapFind m k = some v) : mapGetOrInsert m k = (v, m) := by
  simp [mapGetOrInsert, h]

theorem foldlM_congr {α σ : Type} {f g : σ → α → Option σ}
    (hfg : ∀ s a, f s a = g s a) :
    ∀ (l : List α) (s : σ), l.foldlM f s = l.foldlM g s := by
  intro l
  induction l with
  | nil => intro s; rfl
  | cons a rest ih =>
    intro s
    show f s a >>= _ = g s a >>= _
    rw [hfg]
    cases g s a with
    | none => rfl
    | some s' => exact ih s'

theorem relaxFold_map {cur : Nat} {map : IdMap} (conns : List GraphEdge)
    (hconn : ∀ e ∈ conns, mapFind map e.goal ≠ none) :
    ∀ (nodes : List BufferedNode) (q : List Nat) res,
      conns.foldlM (relaxStep cur) (nodes, map, q) = some res →
      res.2.1 = map := by
  induction conns with
  | nil =>
    intro nodes q res h
    simp [List.foldlM] at h
    rw [← h]
  | cons e rest ih =>
    intro nodes q res h
    have he : mapFind map e.goal ≠ none := hconn e (by simp)
    cases hfind : mapFind map e.goal with
    | none => exact absurd hfind he
    | some v =>
      have hstep : ∀ st', relaxStep cur (nodes, map, q) e = some st' →
          st'.2.1 = map := by
        intro st' hst
        unfold relaxStep at hst
        simp only [mapGetOrInsert_of_present hfind] at hst
        by_cases hb : v < nodes.length
        · rw [if_pos hb] at hst
          by_cases hv : (nodes.getD v default).visited = true
          · rw [if_pos hv] at hst
            obtain rfl := Option.some.inj hst
            rfl
          · rw [if_neg hv] at hst
            obtain rfl := Option.some.inj hst
            rfl
        · rw [if_neg hb] at hst
          exact absurd hst (by simp)
      obtain ⟨st', hst', hrest⟩ :
          ∃ st', relaxStep cur (nodes, map, q) e = some st' ∧
            rest.foldlM (relaxStep cur) st' = some res := by
        cases hrs : relaxStep cur (nodes, map, q) e with
        | none => rw [List.foldlM_cons, hrs] at h; exact absurd h (by simp)
        | some st' =>
          rw [List.foldlM_cons, hrs] at h
          exact ⟨st', rfl, h⟩
      have hm := hstep st' hst'
      obtain ⟨n', m', q'⟩ := st'
      simp only at hm
      subst hm
      exact ih (fun e he' => hconn e (by simp [he'])) n' q' res hrest

theorem findRouteLoop_map {buffer : List GraphNode} {start goal : Int} {map : IdMap}
    (hclosed : ∀ n ∈ buffer, ∀ e ∈ n.connections, mapFind map e.goal ≠ none) :
    ∀ (fuel : Nat) (nodes : List BufferedNode) (q : List Nat),
      (findRouteLoop buffer start goal fuel nodes map q).2 = map := by
  intro fuel
  induction fuel with
  | zero => intro nodes q; rfl
  | succ fuel ih =>
    intro nodes q
    rw [findRouteLoop]
    cases hq : queueBest nodes q with
    | none => rfl
    | some cur =>
      simp only [beq_iff_eq]
      by_cases hgoal : (buffer.getD cur default).nodeID = goal
      · rw [if_pos hgoal]
      · rw [if_neg hgoal]
        have hconn : ∀ e ∈ (buffer.getD cur default).connections,
            mapFind map e.goal ≠ none := by
          intro e he
          by_cases hcur : cur < buffer.length
          · refine hclosed _ ?_ e he
            rw [List.getD_eq_getElem _ _ hcur]
            exact List.getElem_mem hcur
          · rw [List.getD_eq_default _ _ (Nat.le_of_not_lt hcur)] at he
            simp [default] at he
        cases hfold : (buffer.getD cur default).connections.foldlM (relaxStep cur)
            (nodes, map, q.erase cur) with
        | none => rfl
        | some st =>
          have hst := relaxFold_map _ hconn _ _ _ hfold
          obtain ⟨n', m', q'⟩ := st
          simp only at hst
          subst hst
          exact ih _ _

theorem getNode_mem {m : XMLMap} {id : Int} {nd : OSMNode}
    (h : getNode m id = some nd) : nd ∈ m.nodeList :=
  List.get?_mem h

theorem addEdgePair_congr {d d' : ℚ × ℚ → ℚ × ℚ → ℚ} {src : XMLMap}
    (h : ∀ a b : OSMNode, a ∈ src.nodeList → b ∈ src.nodeList →
      d a.asVector b.asVector = d' a.asVector b.asVector)
    (lastID currentID : Int) (lastIndex currentIndex : Nat)
    (buf : List GraphNode) :
    addEdgePair d src lastID currentID lastIndex currentIndex buf =
      addEdgePair d' src lastID currentID lastIndex currentIndex buf := by
  unfold addEdgePair
  cases ha : getNode src lastID with
  | none => rfl
  | some a =>
    cases hb : getNode src currentID with
    | none => rfl
    | some b =>
      dsimp only
      rw [h a b (getNode_mem ha) (getNode_mem hb)]

theorem buildGraphStep_congr {d d' : ℚ × ℚ → ℚ × ℚ → ℚ} {src : XMLMap}
    (h : ∀ a b : OSMNode, a ∈ src.nodeList → b ∈ src.nodeList →
      d a.asVector b.asVector = d' a.asVector b.asVector)
    (st : Graph × Int) (currentID : Int) :
    buildGraphStep d src st currentID = buildGraphStep d' src st currentID := by
  obtain ⟨g, lastID⟩ := st
  unfold buildGraphStep
  dsimp only
  cases hfind : mapFind g.graphMap currentID with
  | none =>
    cases hnd : getNode src currentID with
    | none => rfl
    | some nd =>
      dsimp only
      by_cases hl : lastID ≠ -1
      · simp only [hl, if_true, addEdgePair_congr h]
      · simp only [hl, if_false]
  | some currentIndex =>
    dsimp only
    by_cases hl : lastID ≠ -1
    · simp only [hl, if_true, addEdgePair_congr h]
    · simp only [hl, if_false]

theorem buildGraph_congr {d d' : ℚ × ℚ → ℚ × ℚ → ℚ} {src : XMLMap}
    (h : ∀ a b : OSMNode, a ∈ src.nodeList → b ∈ src.nodeList →
      d a.asVector b.asVector = d' a.asVector b.asVector) :
    buildGraph d src = buildGraph d' src := by
  unfold buildGraph
  refine foldlM_congr (fun g wd => ?_) _ _
  unfold buildGraphWay
  rw [foldlM_congr (buildGraphStep_congr h)]

/-- `distAbs` agrees with the planar Euclidean distance
`√((Δx)² + (Δy)²)` on point pairs sharing a latitude — the only pairs the
line-graph theorems feed it (`glm::distance`, external library code). -/
theorem distAbs_eq_euclid (p q : ℚ × ℚ) (h : p.2 = q.2) :
    ((distAbs p q : ℚ) : ℝ) =
      Real.sqrt (((p.1 : ℝ) - (q.1 : ℝ)) ^ 2 + ((p.2 : ℝ) - (q.2 : ℝ)) ^ 2) := by
  have h2 : ((p.2 : ℚ) : ℝ) = ((q.2 : ℚ) : ℝ) := by exact_mod_cast h
  rw [h2, sub_self]
  rw [show ((0 : ℝ)) ^ 2 = 0 by ring, add_zero, Real.sqrt_sq_eq_abs]
  unfold distAbs
  rcases le_or_lt p.1 q.1 with hle | hlt
  · rw [if_pos hle, abs_of_nonpos (by exact_mod_cast sub_nonpos.mpr hle)]
    push_cast
    ring
  · rw [if_neg (not_le.mpr hlt), abs_of_pos (by exact_mod_cast sub_pos.mpr hlt)]
    push_cast
    ring

/-- Witness that `distAbs_eq_euclid`'s hypothesis is satisfiable. -/
theorem distAbs_eq_euclid_witness :
    ((1 : ℚ), (0 : ℚ)).2 = ((5 : ℚ), (0 : ℚ)).2 ∧
    ((distAbs (1, 0) (5, 0) : ℚ) : ℝ) =
      Real.sqrt ((((1 : ℚ) : ℝ) - ((5 : ℚ) : ℝ)) ^ 2 +
        (((0 : ℚ) : ℝ) - ((0 : ℚ) : ℝ)) ^ 2) :=
  ⟨rfl, distAbs_eq_euclid (1, 0) (5, 0) rfl⟩

/-- C1 (counterexample run): the graph built from `lineSeg` is a 5-node
line whose consecutive edge weights are 1, 2, 3, 4 (visible in
`lineGraph`'s adjacency lists), yet `findRoute(first, last)` returns
`[5, 4, 3, 2]` — goal-to-source order with the source node omitted — not
the five node identifiers in path order from first to last. -/
theorem c1_route_not_first_to_last :
    buildGraph distAbs lineSeg = some lineGraph ∧
    (findRoute lineGraph 1 5).1 = RouteResult.found [5, 4, 3, 2] ∧
    RouteResult.found [5, 4, 3, 2] ≠ RouteResult.found [1, 2, 3, 4, 5] := by
  refine ⟨?_, ?_, ?_⟩
  · with_unfolding_all rfl
  · with_unfolding_all rfl
  · with_unfolding_all decide

/-- C1 (amended): for any distance function that behaves as the planar
Euclidean distance on equal-latitude points (see `distAbs_eq_euclid`),
the graph built from the 5-node line segment is `lineGraph` (edge weights
1, 2, 3, 4), `findRoute(first, last)` returns the four nodes from the
last back to the second — goal-to-source order, the source omitted — and
the edge weights along the full first-to-last path sum to 10 (those along
the returned sequence sum to 9). -/
theorem c1_line_route (d : ℚ × ℚ → ℚ × ℚ → ℚ)
    (hd : ∀ p q : ℚ × ℚ, p.2 = q.2 → d p q = distAbs p q) :
    buildGraph d lineSeg = some lineGraph ∧
    (findRoute lineGraph 1 5).1 = RouteResult.found [5, 4, 3, 2] ∧
    pathWeight lineGraph [1, 2, 3, 4, 5] = 10 ∧
    pathWeight lineGraph [5, 4, 3, 2] = 9 := by
  refine ⟨?_, ?_, ?_, ?_⟩
  · rw [@buildGraph_congr d distAbs lineSeg ?_]
    · with_unfolding_all rfl
    · intro a b ha hb
      refine hd _ _ ?_
      fin_cases ha <;> fin_cases hb <;> rfl
  · with_unfolding_all rfl
  · with_unfolding_all rfl
  · with_unfolding_all rfl

/-- Witness for C1's amended statement with `distAbs` itself. -/
theorem c1_line_route_witness :
    (∀ p q : ℚ × ℚ, p.2 = q.2 → distAbs p q = distAbs p q) ∧
    (buildGraph distAbs lineSeg = some lineGraph ∧
     (findRoute lineGraph 1 5).1 = RouteResult.found [5, 4, 3, 2] ∧
     pathWeight lineGraph [1, 2, 3, 4, 5] = 10 ∧
     pathWeight lineGraph [5, 4, 3, 2] = 9) :=
  ⟨fun _ _ _ => rfl, c1_line_route distAbs (fun _ _ _ => rfl)⟩

/-- C7 (counterexample run): `findRoute` with a start id that is not a
graph node default-inserts `{start, 0}` into `graphMap` through
`operator[]` (osm_graph.cpp:184), so the graph is mutated. -/
theorem c7_absent_start_mutates_graph :
    buildGraph distAbs lineSeg = some lineGraph ∧
    (findRoute lineGraph 7 5).2.graphMap ≠ lineGraph.graphMap := by
  constructor
  · with_unfolding_all rfl
  · with_unfolding_all decide

/-- C7 (amended): when the start id is present in the graph's id map and
every edge target is present as well (both guaranteed for a graph as the
constructor builds it), `findRoute` leaves the graph — node buffer and
id map — unchanged, at every loop fuel. -/
theorem c7_find_route_read_only :
    (∀ (g : Graph) (start goal : Int) (fuel : Nat),
      mapFind g.graphMap start ≠ none →
      (∀ n ∈ g.graphBuffer, ∀ e ∈ n.connections, mapFind g.graphMap e.goal ≠ none) →
      (findRouteFuel g start goal fuel).2 = g) ∧
    (∀ (g : Graph) (start goal : Int),
      mapFind g.graphMap start ≠ none →
      (∀ n ∈ g.graphBuffer, ∀ e ∈ n.connections, mapFind g.graphMap e.goal ≠ none) →
      (findRoute g start goal).2 = g) := by
  have core : ∀ (g : Graph) (start goal : Int) (fuel : Nat),
      mapFind g.graphMap start ≠ none →
      (∀ n ∈ g.graphBuffer, ∀ e ∈ n.connections, mapFind g.graphMap e.goal ≠ none) →
      (findRouteFuel g start goal fuel).2 = g := by
    intro g start goal fuel hstart hclosed
    cases hs : mapFind g.graphMap start with
    | none => exact absurd hs hstart
    | some v =>
      unfold findRouteFuel
      rw [mapGetOrInsert_of_present hs]
      by_cases hb : v < g.graphBuffer.length
      · simp only [hb, if_true]
        rw [findRouteLoop_map hclosed]
      · simp only [hb, if_false]
  exact ⟨core, fun g start goal h1 h2 => core g start goal _ h1 h2⟩

/-- Witness for C7's amended statement on the 5-node line graph. -/
theorem c7_find_route_read_only_witness :
    mapFind lineGraph.graphMap 1 ≠ none ∧
    (∀ n ∈ lineGraph.graphBuffer, ∀ e ∈ n.connections,
      mapFind lineGraph.graphMap e.goal ≠ none) ∧
    (findRoute lineGraph 1 5).2 = lineGraph :=
  ⟨by with_unfolding_all decide, by with_unfolding_all decide,
   c7_find_route_read_only.2 lineGraph 1 5
     (by with_unfolding_all decide) (by with_unfolding_all decide)⟩

theorem mapAssign_of_absent {m : IdMap} {k : Int} (v : Nat)
    (h : mapFind m k = none) : mapAssign m k v = m ++ [(k, v)] := by
  unfold mapFind at h
  unfold mapAssign
  cases hf : m.find? (fun p => p.1 == k) with
  | none => simp [hf]
  | some p => rw [hf] at h; exact absurd h (by simp)

theorem mapAssign_mem {m : IdMap} {k : Int} {v : Nat} {q : Int × Nat}
    (hq : q ∈ mapAssign m k v) : q = (k, v) ∨ q ∈ m := by
  unfold mapAssign at hq
  split at hq
  · obtain ⟨p, hp, hpq⟩ := List.mem_map.mp hq
    by_cases hk : (p.1 == k) = true
    · rw [if_pos hk] at hpq
      exact Or.inl hpq.symm
    · rw [if_neg hk] at hpq
      exact Or.inr (hpq ▸ hp)
  · rcases List.mem_append.mp hq with h | h
    · exact Or.inr h
    · exact Or.inl (List.mem_singleton.mp h)

theorem idxPointsTo_assign_extend {α : Type} [Inhabited α] (getId : α → Int)
    {l : List α} {map : IdMap} (x : α)
    (h : idxPointsTo getId l map) :
    idxPointsTo getId (l ++ [x]) (mapAssign map (getId x) l.length) := by
  intro q hq
  rcases mapAssign_mem hq with rfl | hq'
  · refine ⟨by simp, ?_⟩
    have : (l ++ [x]).getD l.length default = x := by
      rw [List.getD_append_right _ _ _ _ (le_refl _)]
      simp
    simp [this]
  · obtain ⟨hlt, hid⟩ := h q hq'
    refine ⟨by simp; omega, ?_⟩
    rw [List.getD_append _ _ _ _ hlt]
    exact hid

theorem extendBounds_fields (m : XMLMap) (nd : OSMNode) :
    (extendBounds m nd).nodeList = m.nodeList ∧
    (extendBounds m nd).nodeMap = m.nodeMap ∧
    (extendBounds m nd).wayList = m.wayList ∧
    (extendBounds m nd).wayMap = m.wayMap ∧
    (extendBounds m nd).relationList = m.relationList ∧
    (extendBounds m nd).relationMap = m.relationMap := by
  unfold extendBounds
  dsimp only
  split_ifs <;> exact ⟨rfl, rfl, rfl, rfl, rfl, rfl⟩

theorem extendBounds_encloses (m : XMLMap) (nd : OSMNode)
    (hwf : m.lowerLat ≤ m.upperLat ∧ m.lowerLon ≤ m.upperLon) :
    ((extendBounds m nd).lowerLat ≤ m.lowerLat ∧
     m.upperLat ≤ (extendBounds m nd).upperLat ∧
     (extendBounds m nd).lowerLon ≤ m.lowerLon ∧
     m.upperLon ≤ (extendBounds m nd).upperLon) ∧
    ((extendBounds m nd).lowerLat ≤ nd.lat ∧
     nd.lat ≤ (extendBounds m nd).upperLat ∧
     (extendBounds m nd).lowerLon ≤ nd.lon ∧
     nd.lon ≤ (extendBounds m nd).upperLon) ∧
    ((extendBounds m nd).lowerLat ≤ (extendBounds m nd).upperLat ∧
     (extendBounds m nd).lowerLon ≤ (extendBounds m nd).upperLon) := by
  obtain ⟨hw1, hw2⟩ := hwf
  unfold extendBounds
  dsimp only
  split_ifs <;>
    refine ⟨⟨?_, ?_, ?_, ?_⟩, ⟨?_, ?_, ?_, ?_⟩, ?_, ?_⟩ <;>
    dsimp only <;> linarith

theorem addNode_of_present {m : XMLMap} {nd : OSMNode} {v : Nat} (b : Bool)
    (h : mapFind m.nodeMap nd.id = some v) : addNode m nd b = (false, m) := by
  simp [addNode, h]

theorem addNode_fresh {m : XMLMap} {nd : OSMNode} (b : Bool)
    (h : mapFind m.nodeMap nd.id = none) :
    (addNode m nd b).2.nodeList = m.nodeList ++ [nd] ∧
    (addNode m nd b).2.nodeMap = m.nodeMap ++ [(nd.id, m.nodeList.length)] ∧
    (addNode m nd b).2.wayList = m.wayList ∧
    (addNode m nd b).2.wayMap = m.wayMap ∧
    (addNode m nd b).2.relationList = m.relationList ∧
    (addNode m nd b).2.relationMap = m.relationMap := by
  have hassign := mapAssign_of_absent m.nodeList.length h
  cases b with
  | false => simp [addNode, h, hassign]
  | true =>
    have hf := extendBounds_fields
      { m with nodeMap := mapAssign m.nodeMap nd.id m.nodeList.length,
               nodeList := m.nodeList ++ [nd] } nd
    simp only [addNode, h]
    refine ⟨?_, ?_, ?_, ?_, ?_, ?_⟩ <;>
      simp_all

theorem addNode_idx {m : XMLMap} (nd : OSMNode) (b : Bool)
    (h : IndexInv m) : IndexInv (addNode m nd b).2 := by
  cases hm : mapFind m.nodeMap nd.id with
  | some v => rw [addNode_of_present b hm]; exact h
  | none =>
    obtain ⟨h1, h2, h3, h4, h5, h6⟩ := addNode_fresh b hm
    obtain ⟨hn, hw, hr⟩ := h
    refine ⟨?_, ?_, ?_⟩
    · rw [h1, h2, ← mapAssign_of_absent m.nodeList.length hm]
      exact idxPointsTo_assign_extend OSMNode.id nd hn
    · rw [h3, h4]; exact hw
    · rw [h5, h6]; exact hr

theorem addNode_bounds {m : XMLMap} (nd : OSMNode)
    (h : BoundsInv m) : BoundsInv (addNode m nd true).2 := by
  cases hm : mapFind m.nodeMap nd.id with
  | some v => rw [addNode_of_present true hm]; exact h
  | none =>
    set m1 : XMLMap :=
      { m with nodeMap := mapAssign m.nodeMap nd.id m.nodeList.length,
               nodeList := m.nodeList ++ [nd] } with hm1
    have hres : (addNode m nd true).2 = extendBounds m1 nd := by
      simp [addNode, hm]
    have hwf1 : m1.lowerLat ≤ m1.upperLat ∧ m1.lowerLon ≤ m1.upperLon := h.1
    have henc := extendBounds_encloses m1 nd hwf1
    have hfields := extendBounds_fields m1 nd
    rw [hres]
    refine ⟨⟨henc.2.2.1, henc.2.2.2⟩, ?_⟩
    intro x hx
    rw [hfields.1] at hx
    have hx' : x ∈ m.nodeList ++ [nd] := hx
    rcases List.mem_append.mp hx' with hxm | hxn
    · obtain ⟨⟨hb1, hb2⟩, hb3, hb4⟩ := h.2 x hxm
      have e := henc.1
      exact ⟨⟨le_trans e.1 hb1, le_trans hb2 e.2.1⟩,
             le_trans e.2.2.1 hb3, le_trans hb4 e.2.2.2⟩
    · have hxeq := List.mem_singleton.mp hxn
      subst hxeq
      exact ⟨⟨henc.2.1.1, henc.2.1.2.1⟩, henc.2.1.2.2.1, henc.2.1.2.2.2⟩

/-- The combined invariant threaded through the child-insertion
recursions: the index invariant always, the boundary invariant when the
boundary-update flag is set. -/
def SegPres (b : Bool) (m : XMLMap) : Prop :=
  IndexInv m ∧ (b = true → BoundsInv m)

theorem addNode_pres {m : XMLMap} (nd : OSMNode) (b : Bool)
    (h : SegPres b m) : SegPres b (addNode m nd b).2 := by
  refine ⟨addNode_idx nd b h.1, ?_⟩
  intro hb
  subst hb
  exact addNode_bounds nd (h.2 rfl)

theorem addWayChildren_pres {src : XMLMap} {b : Bool} :
    ∀ (refs : List Int) (m res : XMLMap), SegPres b m →
      addWayChildren src b refs m = some res → SegPres b res := by
  intro refs
  induction refs with
  | nil =>
    intro m res hm h
    obtain rfl := Option.some.inj h
    exact hm
  | cons id rest ih =>
    intro m res hm h
    unfold addWayChildren at h
    by_cases hs : getNodeIndex src id = SIZE_MAX
    · rw [if_pos hs] at h
      exact ih m res hm h
    · rw [if_neg hs] at h
      cases hg : getNode src id with
      | none => rw [hg] at h; exact absurd h (by simp)
      | some nd =>
        rw [hg] at h
        exact ih _ res (addNode_pres nd b hm) h

theorem addWay_pres {m : XMLMap} {wd : OSMWay} {src : XMLMap}
    {ac b : Bool} {bl : Bool} {res : XMLMap}
    (hm : SegPres b m) (h : addWay m wd src ac b = some (bl, res)) :
    SegPres b res := by
  unfold addWay at h
  cases hfind : mapFind m.wayMap wd.id with
  | some v =>
    rw [hfind] at h
    obtain rfl : m = res := congrArg Prod.snd (Option.some.inj h)
    exact hm
  | none =>
    rw [hfind] at h
    set m1 : XMLMap :=
      { m with wayMap := mapAssign m.wayMap wd.id m.wayList.length,
               wayList := m.wayList ++ [wd] } with hm1
    have hm1p : SegPres b m1 := by
      obtain ⟨⟨hn, hw, hr⟩, hb⟩ := hm
      refine ⟨⟨hn, idxPointsTo_assign_extend OSMWay.id wd hw, hr⟩, ?_⟩
      intro hbt
      exact hb hbt
    cases ac with
    | false =>
      simp only [Bool.false_eq_true, if_false] at h
      obtain rfl : m1 = res := congrArg Prod.snd (Option.some.inj h)
      exact hm1p
    | true =>
      simp only [if_true] at h
      cases hch : addWayChildren src b wd.nodes m1 with
      | none => rw [hch] at h; exact absurd h (by simp)
      | some m2 =>
        rw [hch] at h
        obtain rfl : m2 = res := congrArg Prod.snd (Option.some.inj h)
        exact addWayChildren_pres wd.nodes m1 m2 hm1p hch

theorem foldlM_option_inv {α σ : Type} (P : σ → Prop) (f : σ → α → Option σ)
    (hf : ∀ s a s', P s → f s a = some s' → P s') :
    ∀ (l : List α) (s res : σ), P s → l.foldlM f s = some res → P res := by
  intro l
  induction l with
  | nil =>
    intro s res hs h
    obtain rfl := Option.some.inj h
    exact hs
  | cons a rest ih =>
    intro s res hs h
    rw [List.foldlM_cons] at h
    cases hfa : f s a with
    | none => rw [hfa] at h; exact absurd h (by simp)
    | some s' =>
      rw [hfa] at h
      exact ih s' res (hf s a s' hs hfa) h

theorem addRelationFuel_pres :
    ∀ (fuel : Nat) {m : XMLMap} {re : OSMRelation} {src : XMLMap}
      {ac b : Bool} {bl : Bool} {res : XMLMap},
      SegPres b m → addRelationFuel fuel m re src ac b = some (bl, res) →
      SegPres b res := by
  intro fuel
  induction fuel with
  | zero => intro m re src ac b bl res _ h; exact absurd h (by simp [addRelationFuel])
  | succ fuel ih =>
    intro m re src ac b bl res hm h
    unfold addRelationFuel at h
    cases hfind : mapFind m.relationMap re.id with
    | some v =>
      rw [hfind] at h
      obtain rfl : m = res := congrArg Prod.snd (Option.some.inj h)
      exact hm
    | none =>
      rw [hfind] at h
      set m1 : XMLMap :=
        { m with relationMap := mapAssign m.relationMap re.id m.relationList.length,
                 relationList := m.relationList ++ [re] } with hm1
      have hm1p : SegPres b m1 := by
        obtain ⟨⟨hn, hw, hr⟩, hb⟩ := hm
        exact ⟨⟨hn, hw, idxPointsTo_assign_extend OSMRelation.id re hr⟩,
               fun hbt => hb hbt⟩
      cases ac with
      | false =>
        simp only [Bool.false_eq_true, if_false] at h
        obtain rfl : m1 = res := congrArg Prod.snd (Option.some.inj h)
        exact hm1p
      | true =>
        simp only [if_true] at h
        rw [Option.bind_eq_bind] at h
        obtain ⟨m2, hm2, h2⟩ := Option.bind_eq_some.mp h
        obtain ⟨m3, hm3, h3⟩ := Option.bind_eq_some.mp h2
        obtain ⟨m4, hm4, h4⟩ := Option.bind_eq_some.mp h3
        obtain rfl : m4 = res := congrArg Prod.snd (Option.some.inj h4)
        have p2 : SegPres b m2 := by
          refine foldlM_option_inv _ _ ?_ re.nodes m1 m2 hm1p hm2
          intro s mem s' hs hstep
          cases hg : getNode src mem.index with
          | none => rw [hg] at hstep; exact absurd hstep (by simp)
          | some nd =>
            rw [hg] at hstep
            dsimp only at hstep
            obtain rfl := Option.some.inj hstep
            exact addNode_pres nd b hs
        have p3 : SegPres b m3 := by
          refine foldlM_option_inv _ _ ?_ re.ways m2 m3 p2 hm3
          intro s mem s' hs hstep
          cases hg : getWay src mem.index with
          | none => rw [hg] at hstep; exact absurd hstep (by simp)
          | some wd =>
            rw [hg] at hstep
            dsimp only at hstep
            cases haw : addWay s wd src true b with
            | none => rw [haw] at hstep; exact absurd hstep (by simp)
            | some pr =>
              rw [haw] at hstep
              obtain rfl : pr.2 = s' := Option.some.inj hstep
              exact addWay_pres hs (by rw [haw])
        refine foldlM_option_inv _ _ ?_ re.relations m3 m4 p3 hm4
        intro s mem s' hs hstep
        cases hg : getRelation src mem.index with
        | none => rw [hg] at hstep; exact absurd hstep (by simp)
        | some r2 =>
          rw [hg] at hstep
          dsimp only at hstep
          cases har : addRelationFuel fuel s r2 src true b with
          | none => rw [har] at hstep; exact absurd hstep (by simp)
          | some pr =>
            rw [har] at hstep
            obtain rfl : pr.2 = s' := Option.some.inj hstep
            exact ih hs (by rw [har])

theorem mergeAppend_idx {α : Type} [Inhabited α] (getId : α → Int)
    (batch : List α) :
    ∀ (l : List α) (map : IdMap), idxPointsTo getId l map →
      idxPointsTo getId (mergeAppend getId batch (l, map)).1
        (mergeAppend getId batch (l, map)).2 := by
  induction batch with
  | nil => intro l map h; exact h
  | cons x xs ih =>
    intro l map h
    show idxPointsTo getId (mergeAppend getId xs (l ++ [x], mapAssign map (getId x) l.length)).1 _
    exact ih (l ++ [x]) (mapAssign map (getId x) l.length)
      (idxPointsTo_assign_extend getId x h)

/-- C5: every insert operation — `addNode`, `addWay`, `addRelation` (the
latter two for any result they return) — preserves the segment invariant:
the three id→index maps keep addressing live positions holding entities
with the mapped id, and, when the boundary-update flag is set, the
bounding rectangle keeps enclosing every contained node; and each worker
batch merge (`updateNodes`/`updateWays`/`updateRelations`) preserves the
index invariant of the shared ingestion state. -/
theorem c5_insert_preserves_invariant :
    (∀ (m : XMLMap) (nd : OSMNode) (b : Bool),
      IndexInv m → (b = true → BoundsInv m) →
      IndexInv (addNode m nd b).2 ∧ (b = true → BoundsInv (addNode m nd b).2)) ∧
    (∀ (m : XMLMap) (wd : OSMWay) (src : XMLMap) (ac b bl : Bool) (res : XMLMap),
      IndexInv m → (b = true → BoundsInv m) →
      addWay m wd src ac b = some (bl, res) →
      IndexInv res ∧ (b = true → BoundsInv res)) ∧
    (∀ (fuel : Nat) (m : XMLMap) (re : OSMRelation) (src : XMLMap)
        (ac b bl : Bool) (res : XMLMap),
      IndexInv m → (b = true → BoundsInv m) →
      addRelationFuel fuel m re src ac b = some (bl, res) →
      IndexInv res ∧ (b = true → BoundsInv res)) ∧
    (∀ (info : ParseInfo) (batch : List OSMNode),
      InfoInv info → InfoInv (updateNodes info batch).1) ∧
    (∀ (info : ParseInfo) (batch : List OSMWay),
      InfoInv info → InfoInv (updateWays info batch).1) ∧
    (∀ (info : ParseInfo) (batch : List OSMRelation),
      InfoInv info → InfoInv (updateRelations info batch).1) := by
  refine ⟨?_, ?_, ?_, ?_, ?_, ?_⟩
  · intro m nd b h1 h2
    exact addNode_pres nd b ⟨h1, h2⟩
  · intro m wd src ac b bl res h1 h2 h
    exact addWay_pres ⟨h1, h2⟩ h
  · intro fuel m re src ac b bl res h1 h2 h
    exact addRelationFuel_pres fuel ⟨h1, h2⟩ h
  · intro info batch h
    obtain ⟨hn, hw, hr⟩ := h
    exact ⟨mergeAppend_idx OSMNode.id batch _ _ hn, hw, hr⟩
  · intro info batch h
    obtain ⟨hn, hw, hr⟩ := h
    exact ⟨hn, mergeAppend_idx OSMWay.id batch _ _ hw, hr⟩
  · intro info batch h
    obtain ⟨hn, hw, hr⟩ := h
    exact ⟨hn, hw, mergeAppend_idx OSMRelation.id batch _ _ hr⟩

/-- Witness for C5 at a concrete insertion into the line segment. -/
theorem c5_insert_preserves_invariant_witness :
    IndexInv lineSeg ∧ (true = true → BoundsInv lineSeg) ∧
    (IndexInv (addNode lineSeg (mkNode 6 0 12) true).2 ∧
     (true = true → BoundsInv (addNode lineSeg (mkNode 6 0 12) true).2)) :=
  ⟨by with_unfolding_all decide, fun _ => by with_unfolding_all decide,
   c5_insert_preserves_invariant.1 lineSeg (mkNode 6 0 12) true
     (by with_unfolding_all decide) (fun _ => by with_unfolding_all decide)⟩

theorem mapFind_append (m1 m2 : IdMap) (k : Int) :
    mapFind (m1 ++ m2) k = (mapFind m1 k).or (mapFind m2 k) := by
  unfold mapFind
  rw [List.find?_append]
  cases m1.find? (fun p => p.1 == k) <;> cases m2.find? (fun p => p.1 == k) <;> rfl

theorem mapFind_singleton (a : Int) (v : Nat) (k : Int) :
    mapFind [(a, v)] k = if a = k then some v else none := by
  unfold mapFind
  by_cases h : a = k
  · simp [List.find?_cons, h]
  · simp [List.find?_cons, h]

theorem mapFind_some_mem {m : IdMap} {k : Int} {v : Nat}
    (h : mapFind m k = some v) : (k, v) ∈ m := by
  unfold mapFind at h
  cases hf : m.find? (fun p => p.1 == k) with
  | none => rw [hf] at h; cases h
  | some p =>
    rw [hf] at h
    obtain hv := Option.some.inj h
    have hmem := List.mem_of_find?_eq_some hf
    have hkey : p.1 = k := by
      have := List.find?_some hf
      exact beq_iff_eq.mp this
    have : p = (k, v) := by
      obtain ⟨p1, p2⟩ := p
      simp only at hkey hv
      rw [hkey, hv]
    exact this ▸ hmem

theorem present_access {α : Type} [Inhabited α] (getId : α → Int)
    {l : List α} {map : IdMap} {k : Int} {v : Nat}
    (hidx : idxPointsTo getId l map) (h : mapFind map k = some v) :
    v < l.length ∧ l.get? v = some (l.getD v default) ∧
      getId (l.getD v default) = k := by
  obtain ⟨hlt, hid⟩ := hidx (k, v) (mapFind_some_mem h)
  refine ⟨hlt, ?_, hid⟩
  rw [List.getD_eq_get _ _ hlt]
  exact List.get?_eq_get hlt

theorem filterWayRefs_eq {m : XMLMap} {wd : OSMWay} {fwn : OSMWay → OSMNode → Bool} :
    ∀ refs : List Int, (∀ id ∈ refs, (getNode m id).isSome) →
      filterWayRefs m wd fwn refs = some (refs.filter (refAccept m fwn wd)) := by
  intro refs
  induction refs with
  | nil => intro _; rfl
  | cons id rest ih =>
    intro h
    obtain ⟨nd, hnd⟩ := Option.isSome_iff_exists.mp (h id (by simp))
    have hrest := ih (fun id' h' => h id' (by simp [h']))
    unfold filterWayRefs
    rw [hnd, hrest]
    dsimp only
    have hacc : refAccept m fwn wd id = fwn wd nd := by
      unfold refAccept; rw [hnd]
    rw [List.filter_cons, hacc]

theorem filterWayRefs_none {m : XMLMap} {wd : OSMWay} {fwn : OSMWay → OSMNode → Bool} :
    ∀ refs : List Int, (∃ id ∈ refs, getNode m id = none) →
      filterWayRefs m wd fwn refs = none := by
  intro refs
  induction refs with
  | nil => intro h; simp at h
  | cons id rest ih =>
    intro h
    obtain ⟨id', hid', hbad⟩ := h
    unfold filterWayRefs
    cases hg : getNode m id with
    | none => rfl
    | some nd =>
      have hrest : filterWayRefs m wd fwn rest = none := by
        refine ih ⟨id', ?_, hbad⟩
        rcases List.mem_cons.mp hid' with rfl | hmem
        · rw [hg] at hbad; cases hbad
        · exact hmem
      rw [hrest]

theorem addWayChildren_total {src : XMLMap} {b : Bool} :
    ∀ (refs : List Int) (m' : XMLMap), (∀ id ∈ refs, (getNode src id).isSome) →
      ∃ res, addWayChildren src b refs m' = some res := by
  intro refs
  induction refs with
  | nil => intro m' _; exact ⟨m', rfl⟩
  | cons id rest ih =>
    intro m' h
    have hrest : ∀ id' ∈ rest, (getNode src id').isSome :=
      fun id' h' => h id' (by simp [h'])
    unfold addWayChildren
    by_cases hs : getNodeIndex src id = SIZE_MAX
    · rw [if_pos hs]; exact ih m' hrest
    · rw [if_neg hs]
      obtain ⟨nd, hnd⟩ := Option.isSome_iff_exists.mp (h id (by simp))
      rw [hnd]
      exact ih _ hrest

theorem addWay_total {m : XMLMap} {wd : OSMWay} {src : XMLMap}
    (h : ∀ id ∈ wd.nodes, (getNode src id).isSome) :
    ∃ pr, addWay m wd src true true = some pr := by
  unfold addWay
  cases hfind : mapFind m.wayMap wd.id with
  | some v => exact ⟨(false, m), rfl⟩
  | none =>
    obtain ⟨res, hres⟩ := addWayChildren_total wd.nodes
      { m with wayMap := mapAssign m.wayMap wd.id m.wayList.length,
               wayList := m.wayList ++ [wd] } h
    rw [if_pos rfl, hres]
    exact ⟨(true, res), rfl⟩

theorem pass2_total {m : XMLMap} {fw : OSMWay → Bool} {fwn : OSMWay → OSMNode → Bool} :
    ∀ (ways : List OSMWay) (acc : XMLMap),
      (∀ wd ∈ ways, fw wd = true → ∀ id ∈ wd.nodes, (getNode m id).isSome) →
      ∃ res, findNodesPass2 m fw fwn ways acc = some res := by
  intro ways
  induction ways with
  | nil => intro acc _; exact ⟨acc, rfl⟩
  | cons wd rest ih =>
    intro acc h
    have hrest : ∀ wd' ∈ rest, fw wd' = true → ∀ id ∈ wd'.nodes, (getNode m id).isSome :=
      fun wd' h' => h wd' (by simp [h'])
    unfold findNodesPass2
    by_cases hfw : fw wd = true
    · rw [if_pos hfw]
      have hws := h wd (by simp) hfw
      rw [filterWayRefs_eq wd.nodes hws]
      dsimp only
      by_cases hempty : (wd.nodes.filter (refAccept m fwn wd)).isEmpty = true
      · rw [if_pos hempty]; exact ih acc hrest
      · rw [if_neg hempty]
        have hsub : ∀ id ∈ wd.nodes.filter (refAccept m fwn wd), (getNode m id).isSome :=
          fun id hid => hws id (List.mem_of_mem_filter hid)
        obtain ⟨pr, hpr⟩ := @addWay_total acc
          { id := wd.id, version := wd.version, tags := wd.tags,
            nodes := wd.nodes.filter (refAccept m fwn wd) } m hsub
        rw [hpr]
        exact ih pr.2 hrest
    · rw [if_neg hfw]; exact ih acc hrest

theorem pass2_none {m : XMLMap} {fw : OSMWay → Bool} {fwn : OSMWay → OSMNode → Bool} :
    ∀ (ways : List OSMWay) (acc : XMLMap),
      (∃ wd ∈ ways, fw wd = true ∧ ∃ id ∈ wd.nodes, getNode m id = none) →
      findNodesPass2 m fw fwn ways acc = none := by
  intro ways
  induction ways with
  | nil => intro acc h; simp at h
  | cons wd rest ih =>
    intro acc h
    obtain ⟨wd', hwd', hfw', hbad'⟩ := h
    unfold findNodesPass2
    by_cases hfw : fw wd = true
    · rw [if_pos hfw]
      by_cases hres : ∀ id ∈ wd.nodes, (getNode m id).isSome
      · rw [filterWayRefs_eq wd.nodes hres]
        dsimp only
        have hwit : wd' ∈ rest := by
          rcases List.mem_cons.mp hwd' with rfl | hmem
          · obtain ⟨id, hid, hnone⟩ := hbad'
            have := hres id hid
            rw [hnone] at this
            cases this
          · exact hmem
        by_cases hempty : (wd.nodes.filter (refAccept m fwn wd)).isEmpty = true
        · rw [if_pos hempty]
          exact ih acc ⟨wd', hwit, hfw', hbad'⟩
        · rw [if_neg hempty]
          have hsub : ∀ id ∈ wd.nodes.filter (refAccept m fwn wd), (getNode m id).isSome :=
            fun id hid => hres id (List.mem_of_mem_filter hid)
          obtain ⟨pr, hpr⟩ := @addWay_total acc
            { id := wd.id, version := wd.version, tags := wd.tags,
              nodes := wd.nodes.filter (refAccept m fwn wd) } m hsub
          rw [hpr]
          exact ih pr.2 ⟨wd', hwit, hfw', hbad'⟩
      · push_neg at hres
        obtain ⟨id, hid, hnone⟩ := hres
        rw [filterWayRefs_none wd.nodes
          ⟨id, hid, Option.not_isSome_iff_eq_none.mp hnone⟩]
    · rw [if_neg hfw]
      have hwit : wd' ∈ rest := by
        rcases List.mem_cons.mp hwd' with rfl | hmem
        · exact absurd hfw' hfw
        · exact hmem
      exact ih acc ⟨wd', hwit, hfw', hbad'⟩

/-- C9: id lookups are only safe for present ids. For an id absent from
the respective index map, `getNodeIndex`/`getWayIndex`/`getRelationIndex`
return the sentinel `SIZE_MAX`, and the `getNode`/`getWay`/`getRelation`
subscript with it is out of bounds (undefined behaviour, modelled
`none`); for a present id, under the index invariant, the access is in
bounds and yields the entity with that id. `findNodes` resolves every
node reference of every way accepted by the way predicate, so it is safe
exactly when all such references resolve: it returns a segment when they
all do, and hits the out-of-bounds access (`none`) when any accepted
way carries an unresolvable reference. -/
theorem c9_lookup_safety :
    (∀ (m : XMLMap) (id : Int),
      mapFind m.nodeMap id = none →
      getNodeIndex m id = SIZE_MAX ∧
      (m.nodeList.length ≤ SIZE_MAX → getNode m id = none)) ∧
    (∀ (m : XMLMap) (id : Int),
      mapFind m.wayMap id = none →
      getWayIndex m id = SIZE_MAX ∧
      (m.wayList.length ≤ SIZE_MAX → getWay m id = none)) ∧
    (∀ (m : XMLMap) (id : Int),
      mapFind m.relationMap id = none →
      getRelationIndex m id = SIZE_MAX ∧
      (m.relationList.length ≤ SIZE_MAX → getRelation m id = none)) ∧
    (∀ (m : XMLMap) (id : Int) (v : Nat),
      idxPointsTo OSMNode.id m.nodeList m.nodeMap →
      mapFind m.nodeMap id = some v →
      getNodeIndex m id = v ∧ v < m.nodeList.length ∧
      ∃ nd, getNode m id = some nd ∧ nd.id = id) ∧
    (∀ (m : XMLMap) (fn : OSMNode → Bool) (fw : OSMWay → Bool)
        (fwn : OSMWay → OSMNode → Bool),
      (∀ wd ∈ m.wayList, fw wd = true → ∀ id ∈ wd.nodes, (getNode m id).isSome) →
      (findNodes m fn fw fwn).isSome) ∧
    (∀ (m : XMLMap) (fn : OSMNode → Bool) (fw : OSMWay → Bool)
        (fwn : OSMWay → OSMNode → Bool),
      (∃ wd ∈ m.wayList, fw wd = true ∧ ∃ id ∈ wd.nodes, getNode m id = none) →
      findNodes m fn fw fwn = none) := by
  refine ⟨?_, ?_, ?_, ?_, ?_, ?_⟩
  · intro m id h
    have hidx : getNodeIndex m id = SIZE_MAX := by unfold getNodeIndex; rw [h]
    exact ⟨hidx, fun hlen => by
      unfold getNode; rw [hidx]; exact List.get?_eq_none.mpr hlen⟩
  · intro m id h
    have hidx : getWayIndex m id = SIZE_MAX := by unfold getWayIndex; rw [h]
    exact ⟨hidx, fun hlen => by
      unfold getWay; rw [hidx]; exact List.get?_eq_none.mpr hlen⟩
  · intro m id h
    have hidx : getRelationIndex m id = SIZE_MAX := by unfold getRelationIndex; rw [h]
    exact ⟨hidx, fun hlen => by
      unfold getRelation; rw [hidx]; exact List.get?_eq_none.mpr hlen⟩
  · intro m id v hinv h
    obtain ⟨hlt, hget, hid⟩ := present_access OSMNode.id hinv h
    have hidx : getNodeIndex m id = v := by unfold getNodeIndex; rw [h]
    exact ⟨hidx, hlt, m.nodeList.getD v default, by unfold getNode; rw [hidx]; exact hget, hid⟩
  · intro m fn fw fwn h
    obtain ⟨res, hres⟩ := pass2_total m.wayList (findNodesPass1 fn m.nodeList XMLMap.mkEmpty) h
    unfold findNodes
    rw [hres]
    rfl
  · intro m fn fw fwn h
    unfold findNodes
    exact pass2_none m.wayList _ h

/-- Witness for C9: a present id resolves in bounds on the line segment;
the dangling segment's way reference 99 does not resolve and `findNodes`
(with the accept-all predicates of `findSquareNodes`) hits the
out-of-bounds access. -/
theorem c9_lookup_safety_witness :
    (mapFind lineSeg.nodeMap 99 = none ∧
     getNodeIndex lineSeg 99 = SIZE_MAX ∧
     (lineSeg.nodeList.length ≤ SIZE_MAX → getNode lineSeg 99 = none)) ∧
    (idxPointsTo OSMNode.id lineSeg.nodeList lineSeg.nodeMap ∧
     mapFind lineSeg.nodeMap 3 = some 2 ∧
     (getNodeIndex lineSeg 3 = 2 ∧ 2 < lineSeg.nodeList.length ∧
      ∃ nd, getNode lineSeg 3 = some nd ∧ nd.id = 3)) ∧
    ((∃ wd ∈ danglingSeg.wayList, (fun _ => true) wd = true ∧
        ∃ id ∈ wd.nodes, getNode danglingSeg id = none) ∧
     findNodes danglingSeg (fun _ => true) (fun _ => true) (fun _ _ => true) = none) :=
  ⟨⟨by with_unfolding_all decide,
    (c9_lookup_safety.1 lineSeg 99 (by with_unfolding_all decide)).1,
    (c9_lookup_safety.1 lineSeg 99 (by with_unfolding_all decide)).2⟩,
   ⟨by with_unfolding_all decide, by with_unfolding_all decide,
    c9_lookup_safety.2.2.2.1 lineSeg 3 2 (by with_unfolding_all decide)
      (by with_unfolding_all decide)⟩,
   ⟨by with_unfolding_all decide,
    c9_lookup_safety.2.2.2.2.2 danglingSeg (fun _ => true) (fun _ => true)
      (fun _ _ => true) (by with_unfolding_all decide)⟩⟩

theorem mapFind_mapOverwrite (k : Int) (v : Nat) {k' : Int} (h : k' ≠ k) :
    ∀ m : IdMap,
      mapFind (m.map (fun p => if p.1 == k then (k, v) else p)) k' = mapFind m k' := by
  intro m
  induction m with
  | nil => rfl
  | cons p rest ih =>
    show mapFind ((if p.1 == k then (k, v) else p) :: _) k' = _
    unfold mapFind
    rw [List.find?_cons, List.find?_cons]
    by_cases hk : (p.1 == k) = true
    · rw [if_pos hk]
      have hkv : ((k, v).1 == k') = false :=
        beq_eq_false_iff_ne.mpr (Ne.symm h)
      have hp : (p.1 == k') = false := by
        refine beq_eq_false_iff_ne.mpr ?_
        rw [beq_iff_eq.mp hk]
        exact Ne.symm h
      rw [hkv, hp]
      exact ih
    · rw [if_neg hk]
      by_cases hp : (p.1 == k') = true
      · rw [hp]
      · rw [Bool.not_eq_true] at hp
        rw [hp]
        exact ih

theorem mapFind_mapAssign_ne {m : IdMap} (k : Int) (v : Nat) {k' : Int}
    (h : k' ≠ k) : mapFind (mapAssign m k v) k' = mapFind m k' := by
  unfold mapAssign
  split
  · exact mapFind_mapOverwrite k v h m
  · rw [mapFind_append, mapFind_singleton, if_neg (Ne.symm h)]
    cases mapFind m k' <;> rfl

theorem pairwise_ne_of_enum_complete {α : Type} (getId : α → Int)
    {l : List α} {map : IdMap}
    (h : ∀ p ∈ l.enum, mapFind map (getId p.2) = some p.1) :
    l.Pairwise (fun a b => getId a ≠ getId b) := by
  rw [List.pairwise_iff_get]
  intro i j hij heq
  have hi : ((i : Nat), l.get i) ∈ l.enum :=
    List.mem_enum_iff_get?.mpr (List.get?_eq_get i.isLt)
  have hj : ((j : Nat), l.get j) ∈ l.enum :=
    List.mem_enum_iff_get?.mpr (List.get?_eq_get j.isLt)
  have h1 := h _ hi
  have h2 := h _ hj
  simp only at h1 h2
  rw [heq] at h1
  exact absurd (Option.some.inj (h1.symm.trans h2)) (Nat.ne_of_lt hij)

theorem addWayChildren_noop {src : XMLMap} {b : Bool} :
    ∀ (refs : List Int) (acc : XMLMap),
      (∀ id ∈ refs, ∃ nd, getNode src id = some nd ∧
        mapFind acc.nodeMap nd.id ≠ none) →
      addWayChildren src b refs acc = some acc := by
  intro refs
  induction refs with
  | nil => intro acc _; rfl
  | cons id rest ih =>
    intro acc h
    have hrest : ∀ id' ∈ rest, ∃ nd, getNode src id' = some nd ∧
        mapFind acc.nodeMap nd.id ≠ none :=
      fun id' h' => h id' (by simp [h'])
    unfold addWayChildren
    by_cases hs : getNodeIndex src id = SIZE_MAX
    · rw [if_pos hs]; exact ih acc hrest
    · rw [if_neg hs]
      obtain ⟨nd, hnd, hpres⟩ := h id (by simp)
      rw [hnd]
      dsimp only
      cases hfind : mapFind acc.nodeMap nd.id with
      | none => exact absurd hfind hpres
      | some v =>
        rw [addNode_of_present b hfind]
        exact ih acc hrest

theorem addWay_fresh_noop {acc : XMLMap} {w : OSMWay} {src : XMLMap}
    (hfresh : mapFind acc.wayMap w.id = none)
    (hch : ∀ id ∈ w.nodes, ∃ nd, getNode src id = some nd ∧
      mapFind acc.nodeMap nd.id ≠ none) :
    addWay acc w src true true = some (true,
      { acc with wayMap := mapAssign acc.wayMap w.id acc.wayList.length,
                 wayList := acc.wayList ++ [w] }) := by
  unfold addWay
  rw [hfresh]
  dsimp only
  rw [if_pos rfl]
  have hres := @addWayChildren_noop src true w.nodes
    { acc with
      wayMap := mapAssign acc.wayMap w.id acc.wayList.length,
      wayList := acc.wayList ++ [w] } hch
  rw [hres]

/-- The node-collection pass characterized: starting from an accumulator
whose node ids are disjoint from the incoming (duplicate-free) nodes, it
appends exactly the accepted nodes, touches no other collection, and
keeps every previously indexed id (plus each accepted node's id)
present. -/
theorem pass1_go (P : OSMNode → Bool) :
    ∀ (l : List OSMNode) (acc : XMLMap),
      l.Pairwise (fun a b => a.id ≠ b.id) →
      (∀ nd ∈ l, mapFind acc.nodeMap nd.id = none) →
      (findNodesPass1 P l acc).nodeList = acc.nodeList ++ l.filter P ∧
      (findNodesPass1 P l acc).wayList = acc.wayList ∧
      (findNodesPass1 P l acc).wayMap = acc.wayMap ∧
      (findNodesPass1 P l acc).relationList = acc.relationList ∧
      (findNodesPass1 P l acc).relationMap = acc.relationMap ∧
      (∀ k, mapFind acc.nodeMap k ≠ none →
        mapFind (findNodesPass1 P l acc).nodeMap k ≠ none) ∧
      (∀ nd ∈ l, P nd = true →
        mapFind (findNodesPass1 P l acc).nodeMap nd.id ≠ none) := by
  intro l
  induction l with
  | nil =>
    intro acc _ _
    exact ⟨by simp [findNodesPass1], rfl, rfl, rfl, rfl, fun k hk => hk, by simp⟩
  | cons nd rest ih =>
    intro acc hpair hfresh
    obtain ⟨hhead, htail⟩ := List.pairwise_cons.mp hpair
    have hstep : findNodesPass1 P (nd :: rest) acc =
        findNodesPass1 P rest (if P nd then (addNode acc nd).2 else acc) := rfl
    by_cases hP : P nd = true
    · have hfnd : mapFind acc.nodeMap nd.id = none := hfresh nd (by simp)
      obtain ⟨f1, f2, f3, f4, f5, f6⟩ := addNode_fresh true hfnd
      have hfresh' : ∀ nd' ∈ rest, mapFind (addNode acc nd).2.nodeMap nd'.id = none := by
        intro nd' h'
        rw [f2, mapFind_append, hfresh nd' (by simp [h']),
          mapFind_singleton, if_neg (hhead nd' h')]
        rfl
      obtain ⟨i1, i2, i3, i4, i5, i6, i7⟩ := ih ((addNode acc nd).2) htail hfresh'
      rw [hstep, if_pos hP]
      have hmono : ∀ k, mapFind acc.nodeMap k ≠ none →
          mapFind (addNode acc nd).2.nodeMap k ≠ none := by
        intro k hk
        rw [f2, mapFind_append]
        cases hmk : mapFind acc.nodeMap k with
        | none => exact absurd hmk hk
        | some v => simp [Option.or]
      have hself : mapFind (addNode acc nd).2.nodeMap nd.id ≠ none := by
        rw [f2, mapFind_append, hfnd, mapFind_singleton, if_pos rfl]
        simp [Option.or]
      refine ⟨?_, by rw [i2, f3], by rw [i3, f4], by rw [i4, f5], by rw [i5, f6],
              ?_, ?_⟩
      · rw [i1, f1, List.filter_cons, if_pos hP]
        simp [List.append_assoc]
      · intro k hk
        exact i6 k (hmono k hk)
      · intro nd' h' hP'
        rcases List.mem_cons.mp h' with rfl | hmem
        · exact i6 _ hself
        · exact i7 nd' hmem hP'
    · have hPf : P nd = false := Bool.not_eq_true _ ▸ (by simpa using hP)
      obtain ⟨i1, i2, i3, i4, i5, i6, i7⟩ :=
        ih acc htail (fun nd' h' => hfresh nd' (by simp [h']))
      rw [hstep, if_neg hP]
      refine ⟨?_, i2, i3, i4, i5, i6, ?_⟩
      · rw [i1, List.filter_cons, if_neg (by simp [hPf])]
      · intro nd' h' hP'
        rcases List.mem_cons.mp h' with rfl | hmem
        · exact absurd hP' hP
        · exact i7 nd' hmem hP'

/-- The way-collection pass characterized: with all references of all
ways resolving, every accepted reference's node already indexed in the
accumulator, and fresh duplicate-free way ids, the pass leaves the node
collection untouched and appends exactly the accepted ways that keep a
non-empty filtered reference list, re-created with those references. -/
theorem pass2_go {m : XMLMap} {fw : OSMWay → Bool} {fwn : OSMWay → OSMNode → Bool} :
    ∀ (ways : List OSMWay) (acc : XMLMap),
      (∀ wd ∈ ways, ∀ id ∈ wd.nodes, (getNode m id).isSome) →
      (∀ wd ∈ ways, ∀ id ∈ wd.nodes, ∀ nd, getNode m id = some nd →
        fwn wd nd = true → mapFind acc.nodeMap nd.id ≠ none) →
      (∀ wd ∈ ways, mapFind acc.wayMap wd.id = none) →
      ways.Pairwise (fun a b => a.id ≠ b.id) →
      ∃ res, findNodesPass2 m fw fwn ways acc = some res ∧
        res.nodeList = acc.nodeList ∧
        res.nodeMap = acc.nodeMap ∧
        res.wayList = acc.wayList ++ ways.filterMap (fun wd =>
          if fw wd then
            (if (wd.nodes.filter (refAccept m fwn wd)).isEmpty then none
             else some (filteredWay m fwn wd))
          else none) := by
  intro ways
  induction ways with
  | nil =>
    intro acc _ _ _ _
    exact ⟨acc, rfl, rfl, rfl, by simp⟩
  | cons wd rest ih =>
    intro acc hres hpres hfresh hpair
    obtain ⟨hhead, htail⟩ := List.pairwise_cons.mp hpair
    have hresR : ∀ wd' ∈ rest, ∀ id ∈ wd'.nodes, (getNode m id).isSome :=
      fun wd' h' => hres wd' (by simp [h'])
    have hpresR : ∀ wd' ∈ rest, ∀ id ∈ wd'.nodes, ∀ nd, getNode m id = some nd →
        fwn wd' nd = true → mapFind acc.nodeMap nd.id ≠ none :=
      fun wd' h' => hpres wd' (by simp [h'])
    unfold findNodesPass2
    by_cases hfw : fw wd = true
    · rw [if_pos hfw, filterWayRefs_eq wd.nodes (hres wd (by simp))]
      dsimp only
      by_cases hempty : (wd.nodes.filter (refAccept m fwn wd)).isEmpty = true
      · rw [if_pos hempty]
        obtain ⟨res, e0, e1, e2, e3⟩ := ih acc hresR hpresR
          (fun wd' h' => hfresh wd' (by simp [h'])) htail
        refine ⟨res, e0, e1, e2, ?_⟩
        rw [e3, List.filterMap_cons]
        have : (if fw wd then
            (if (wd.nodes.filter (refAccept m fwn wd)).isEmpty then none
             else some (filteredWay m fwn wd)) else none) = none := by
          rw [if_pos hfw, if_pos hempty]
        rw [this]
      · rw [if_neg hempty]
        set w : OSMWay :=
          ⟨wd.id, wd.version, wd.tags, wd.nodes.filter (refAccept m fwn wd)⟩ with hw
        have hch : ∀ id ∈ w.nodes, ∃ nd, getNode m id = some nd ∧
            mapFind acc.nodeMap nd.id ≠ none := by
          intro id hid
          have hid' := List.mem_filter.mp hid
          obtain ⟨nd, hnd⟩ := Option.isSome_iff_exists.mp
            (hres wd (by simp) id hid'.1)
          refine ⟨nd, hnd, ?_⟩
          have hacc : refAccept m fwn wd id = true := hid'.2
          unfold refAccept at hacc
          rw [hnd] at hacc
          exact hpres wd (by simp) id hid'.1 nd hnd hacc
        rw [@addWay_fresh_noop acc w m (hfresh wd (by simp)) hch]
        set acc' : XMLMap :=
          { acc with wayMap := mapAssign acc.wayMap w.id acc.wayList.length,
                     wayList := acc.wayList ++ [w] } with hacc'
        have hfreshR : ∀ wd' ∈ rest, mapFind acc'.wayMap wd'.id = none := by
          intro wd' h'
          show mapFind (mapAssign acc.wayMap w.id acc.wayList.length) wd'.id = none
          rw [mapFind_mapAssign_ne _ _ (Ne.symm (hhead wd' h'))]
          exact hfresh wd' (by simp [h'])
        obtain ⟨res, e0, e1, e2, e3⟩ := ih acc' hresR hpresR hfreshR htail
        refine ⟨res, e0, e1, e2, ?_⟩
        rw [e3, List.filterMap_cons]
        have hF : (if fw wd then
            (if (wd.nodes.filter (refAccept m fwn wd)).isEmpty then none
             else some (filteredWay m fwn wd)) else none) =
            some (filteredWay m fwn wd) := by
          rw [if_pos hfw, if_neg hempty]
        rw [hF]
        show acc.wayList ++ [w] ++ _ = _
        rw [List.append_assoc]
        rfl
    · rw [if_neg hfw]
      obtain ⟨res, e0, e1, e2, e3⟩ := ih acc hresR hpresR
        (fun wd' h' => hfresh wd' (by simp [h'])) htail
      refine ⟨res, e0, e1, e2, ?_⟩
      rw [e3, List.filterMap_cons]
      have : (if fw wd then
          (if (wd.nodes.filter (refAccept m fwn wd)).isEmpty then none
           else some (filteredWay m fwn wd)) else none) = none := by
        rw [if_neg hfw]
      rw [this]

/-- C3: on a segment whose id→index maps list their collections (the
segment invariant) and whose way references all resolve,
`findSquareNodes(rect)` succeeds and returns a segment whose node
collection is exactly the input nodes inside the rectangle (in input
order) and whose way collection keeps exactly the ways with at least one
inside reference, each carrying exactly its inside references in their
original order; ways with no inside reference are dropped. -/
theorem c3_find_square_nodes (m : XMLMap) (r : Rect)
    (hn : ∀ p ∈ m.nodeList.enum, mapFind m.nodeMap p.2.id = some p.1)
    (hw : ∀ p ∈ m.wayList.enum, mapFind m.wayMap p.2.id = some p.1)
    (hres : ∀ wd ∈ m.wayList, ∀ id ∈ wd.nodes, (getNode m id).isSome) :
    (findSquareNodes m r).map (fun res => (res.nodeList, res.wayList)) =
      some (m.nodeList.filter (fun nd => r.containsPt nd.lat nd.lon),
            m.wayList.filterMap (fun wd =>
              if (wd.nodes.filter
                  (refAccept m (fun _ nd => r.containsPt nd.lat nd.lon) wd)).isEmpty
              then none
              else some (filteredWay m (fun _ nd => r.containsPt nd.lat nd.lon) wd))) := by
  have hpairN : m.nodeList.Pairwise (fun a b => a.id ≠ b.id) :=
    pairwise_ne_of_enum_complete OSMNode.id hn
  have hpairW : m.wayList.Pairwise (fun a b => a.id ≠ b.id) :=
    pairwise_ne_of_enum_complete OSMWay.id hw
  obtain ⟨p1, p2, p3, p4, p5, p6, p7⟩ :=
    pass1_go (fun nd => r.containsPt nd.lat nd.lon) m.nodeList XMLMap.mkEmpty
      hpairN (fun nd _ => rfl)
  have hpres : ∀ wd ∈ m.wayList, ∀ id ∈ wd.nodes, ∀ nd, getNode m id = some nd →
      (fun _ nd => r.containsPt nd.lat nd.lon) wd nd = true →
      mapFind (findNodesPass1 (fun nd => r.containsPt nd.lat nd.lon)
        m.nodeList XMLMap.mkEmpty).nodeMap nd.id ≠ none := by
    intro wd _ id _ nd hnd hfwn
    exact p7 nd (getNode_mem hnd) hfwn
  have hfreshW : ∀ wd ∈ m.wayList,
      mapFind (findNodesPass1 (fun nd => r.containsPt nd.lat nd.lon)
        m.nodeList XMLMap.mkEmpty).wayMap wd.id = none := by
    intro wd _
    rw [p3]
    rfl
  obtain ⟨res, e0, e1, e2, e3⟩ := pass2_go m.wayList
    (findNodesPass1 (fun nd => r.containsPt nd.lat nd.lon) m.nodeList XMLMap.mkEmpty)
    hres hpres hfreshW hpairW
  have hmain : findSquareNodes m r = some res := e0
  rw [hmain]
  refine congrArg some (Prod.ext ?_ ?_)
  · show res.nodeList = _
    rw [e1, p1]
    rfl
  · show res.wayList = _
    rw [e3, p2]
    rfl

/-- Witness for C3 on the mixed inside/outside fixture: node 2 (outside)
is dropped, nodes 1 and 3 (inside) are kept, way 30 (only outside
references) is dropped, way 31 keeps exactly its inside reference. -/
theorem c3_find_square_nodes_witness :
    (∀ p ∈ mixedSeg.nodeList.enum, mapFind mixedSeg.nodeMap p.2.id = some p.1) ∧
    (∀ p ∈ mixedSeg.wayList.enum, mapFind mixedSeg.wayMap p.2.id = some p.1) ∧
    (∀ wd ∈ mixedSeg.wayList, ∀ id ∈ wd.nodes, (getNode mixedSeg id).isSome) ∧
    (findSquareNodes mixedSeg unitRect).map (fun res => (res.nodeList, res.wayList)) =
      some (mixedSeg.nodeList.filter (fun nd => unitRect.containsPt nd.lat nd.lon),
            mixedSeg.wayList.filterMap (fun wd =>
              if (wd.nodes.filter
                  (refAccept mixedSeg (fun _ nd => unitRect.containsPt nd.lat nd.lon) wd)).isEmpty
              then none
              else some (filteredWay mixedSeg
                (fun _ nd => unitRect.containsPt nd.lat nd.lon) wd))) :=
  ⟨by with_unfolding_all decide, by with_unfolding_all decide,
   by with_unfolding_all decide,
   c3_find_square_nodes mixedSeg unitRect (by with_unfolding_all decide)
     (by with_unfolding_all decide) (by with_unfolding_all decide)⟩

/-- Witness for C4's amended protocol at concrete inputs. -/
theorem c4_merge_protocol_witness :
    (List.replicate (1024 * 16) (mkNode 1 0 0)).length ≥ 1024 * 16 ∧
    tryMerge (List.replicate (1024 * 16) (mkNode 1 0 0)) true id info0 =
      (false, info0) :=
  ⟨by rw [List.length_replicate], by
    have h := (c4_merge_protocol.1 OSMNode ParseInfo
      (List.replicate (1024 * 16) (mkNode 1 0 0)) true id info0).1
      (by rw [List.length_replicate])
    exact h.trans rfl⟩

end TrafficSim
